import Mathlib

/-!
Verification of the road-network routing core (`src/math.rs`).

The Rust code is shallowly embedded:

* strings are `List Char` (the Rust parsers walk `str::chars()`, counting
  character positions; all inputs the code slices at are ASCII so character
  indices and byte indices agree);
* the machine integers `u8/u16/u32/i16/i32` are `Nat`/`Int` with explicit
  range checks where the Rust numeric parsers enforce them;
* `f64` values (segment headings, route offsets) are modelled as `ℚ`:
  every concrete heading in the program is a small integral value, on which
  rational and double arithmetic agree; `NaN`/infinity are not modelled;
* fallible operations return `Option`; a Rust `panic` (a failed `unwrap`,
  an out-of-bounds index, a division by zero) and a provably diverging loop
  are modelled as a `none`/`panic` outcome, never as a value;
* `usize::MAX`, used by the junction resolver as a "no exit" sentinel, is
  modelled as `Option.none`.
-/

set_option maxHeartbeats 1000000

namespace Lrn

/-! ## Character classes (Rust `char` predicates) -/

/-- Rust `char::is_whitespace`: the Unicode White_Space code points. -/
def isWhite (c : Char) : Bool :=
  [0x9, 0xA, 0xB, 0xC, 0xD, 0x20, 0x85, 0xA0, 0x1680,
   0x2000, 0x2001, 0x2002, 0x2003, 0x2004, 0x2005, 0x2006, 0x2007, 0x2008,
   0x2009, 0x200A, 0x2028, 0x2029, 0x202F, 0x205F, 0x3000].contains c.toNat

/-- Rust `char::is_digit(10)`: an ASCII decimal digit. -/
def isDigit10 (c : Char) : Bool :=
  48 ≤ c.toNat && c.toNat ≤ 57

/-! ## Numeric parsers (Rust `FromStr` for the integer types and `f64`) -/

/-- Value of a digit string, most significant digit first. -/
def digitsToNat (l : List Char) : Nat :=
  l.foldl (fun a c => a * 10 + (c.toNat - 48)) 0

/-- A non-empty all-digit string, or nothing. -/
def parseNatCore (l : List Char) : Option Nat :=
  if l ≠ [] ∧ l.all isDigit10 then some (digitsToNat l) else none

/-- Strip the optional leading `+` accepted by Rust's unsigned `from_str`. -/
def stripSign : List Char → List Char
  | '+' :: t => t
  | t => t

/-- Rust unsigned `from_str`: an optional `+` sign, digits, range check. -/
def parseUnsigned (max : Nat) (l : List Char) : Option Nat :=
  match parseNatCore (stripSign l) with
  | some v => if v ≤ max then some v else none
  | none => none

/-- Split the optional leading sign accepted by Rust's signed `from_str`. -/
def signSplit : List Char → Int × List Char
  | '-' :: t => (-1, t)
  | '+' :: t => (1, t)
  | t => (1, t)

/-- Rust signed `from_str`: an optional sign, digits, range check. -/
def parseSigned (lo hi : Int) (l : List Char) : Option Int :=
  match parseNatCore (signSplit l).2 with
  | some v =>
      let val : Int := (signSplit l).1 * v
      if lo ≤ val ∧ val ≤ hi then some val else none
  | none => none

def parseU8 : List Char → Option Nat := parseUnsigned 255
def parseU16 : List Char → Option Nat := parseUnsigned 65535
def parseU32 : List Char → Option Nat := parseUnsigned 4294967295
def parseI16 : List Char → Option Int := parseSigned (-32768) 32767
def parseI32 : List Char → Option Int := parseSigned (-2147483648) 2147483647

/-- Rust `f64::from_str`, with the value represented exactly in `ℚ`:
an optional sign, a decimal mantissa (digits, an optional point, optional
fraction digits, at least one digit in total), and an optional decimal
exponent.  The non-finite forms (`inf`, `infinity`, `NaN`) have no rational
value and are treated as unparseable; rounding to binary floating point is
not modelled. -/
def parseF64 (l : List Char) : Option ℚ :=
  let (sgn, l') : ℚ × List Char := match l with
    | '-' :: t => (-1, t)
    | '+' :: t => (1, t)
    | t => (1, t)
  let ip := l'.takeWhile isDigit10
  let r1 := l'.dropWhile isDigit10
  let (fp, r2) : List Char × List Char := match r1 with
    | '.' :: t => (t.takeWhile isDigit10, t.dropWhile isDigit10)
    | t => ([], t)
  if ip = [] ∧ fp = [] then none
  else
    let mant : ℚ := (digitsToNat ip : ℚ) + (digitsToNat fp : ℚ) / ((10 : ℚ) ^ fp.length)
    match r2 with
    | [] => some (sgn * mant)
    | e :: t =>
      if e = 'e' ∨ e = 'E' then
        let (esgn, t') : Int × List Char := match t with
          | '-' :: t2 => (-1, t2)
          | '+' :: t2 => (1, t2)
          | t2 => (1, t2)
        if t' ≠ [] ∧ t'.all isDigit10 then
          some (sgn * mant * (10 : ℚ) ^ (esgn * (digitsToNat t' : Int)))
        else none
      else none

/-! ## Splitting (Rust `str::split(sep)`) -/

/-- Rust `str::split(sep)` collected to a list; on an empty string it yields
one empty piece, exactly like the Rust iterator. -/
def splitOnChar (sep : Char) : List Char → List (List Char)
  | [] => [[]]
  | c :: t =>
    match splitOnChar sep t with
    | [] => [[c]]
    | h :: r => if c = sep then [] :: h :: r else (c :: h) :: r

/-! ## `Identifier` and its parser (`Identifier::parse`) -/

/-- The four-field network-component identifier (`link.tile.segment.lane`). -/
structure Identifier where
  link : Nat
  tile : Nat
  seg : Nat
  lane : Int
deriving DecidableEq, Repr

/-- The `ParsingState` enum of `math.rs`. -/
inductive PState where
  | initial
  | foundDigit
  | accepted
deriving DecidableEq, Repr

/-- The mutable locals of `Identifier::parse`: the four fields parsed so far,
the parsing state, the current digit-run bounds `digits_start`/`digits_end`,
the field counter `i`, the `allow_negative` flag and the character index. -/
structure IState where
  link : Nat
  tile : Nat
  seg : Nat
  lane : Int
  st : PState
  ds : Nat
  de : Nat
  i : Nat
  alln : Bool
  idx : Nat
deriving DecidableEq, Repr

/-- A run of `Identifier::parse` is either still executing or has taken the
early `return Err("Expected whole number, got minus sign")`. -/
inductive IStep where
  | run (s : IState)
  | err
deriving DecidableEq, Repr

/-- One iteration of the character loop of `Identifier::parse`.  `str` is the
whole input, needed because the Rust code slices `str[digits_start..digits_end]`
when a field is closed by a `'.'`. -/
def identStep (str : List Char) (m : IStep) (c : Char) : IStep :=
  match m with
  | .err => .err
  | .run s =>
    match s.st with
    | .initial =>
      if isDigit10 c || (c = '-' && s.alln) then
        .run { s with ds := s.idx, de := s.idx + 1, st := .foundDigit, idx := s.idx + 1 }
      else if c = '-' then .err
      else .run { s with idx := s.idx + 1 }
    | .foundDigit =>
      if isDigit10 c then
        .run { s with de := s.de + 1, idx := s.idx + 1 }
      else if c = '.' then
        let digits := (str.drop s.ds).take (s.de - s.ds)
        if s.i < 4 then
          let s' :=
            if s.i = 0 then { s with link := (parseU16 digits).getD 0 }
            else if s.i = 1 then { s with tile := (parseU16 digits).getD 0 }
            else if s.i = 2 then { s with seg := (parseU16 digits).getD 0 }
            else { s with lane := (parseI16 digits).getD 0 }
          .run { s' with i := s.i + 1, alln := if s.i + 1 = 3 then true else s.alln,
                         ds := 0, de := 0, st := .initial, idx := s.idx + 1 }
        else .run { s with st := .accepted, idx := s.idx + 1 }
      else .run { s with idx := s.idx + 1 }
    | .accepted => .run s

/-- Result of `Identifier::parse`: `Ok`, `Err(message)`, or a Rust panic
(the `unwrap()` on the final lane parse). -/
inductive IRes where
  | ok (id : Identifier)
  | err (msg : String)
  | panic
deriving DecidableEq, Repr

def minusMsg : String := "Expected whole number, got minus sign"

def identInit : IState :=
  { link := 0, tile := 0, seg := 0, lane := 0,
    st := .initial, ds := 0, de := 0, i := 0, alln := false, idx := 0 }

/-- `Identifier::parse` of `math.rs`: a character state machine over the
input; after the loop, a pending fourth field is closed with
`digits.parse::<i16>().unwrap()` (a panic when that parse fails). -/
def Identifier.parse (str : List Char) : IRes :=
  match str.foldl (identStep str) (.run identInit) with
  | .err => .err minusMsg
  | .run s =>
    if s.st = .foundDigit ∧ s.i = 3 then
      match parseI16 ((str.drop s.ds).take (s.de - s.ds)) with
      | some v => .ok ⟨s.link, s.tile, s.seg, v⟩
      | none => .panic
    else .ok ⟨s.link, s.tile, s.seg, s.lane⟩

/-! ## `Mask` and its parser (`Mask::parse`) -/

/-- Which `Identifier` fields are active in a query. -/
structure Mask where
  link : Bool
  tile : Bool
  seg : Bool
  lane : Bool
deriving DecidableEq, Repr

/-- The mutable locals of `Mask::parse`. -/
structure MState where
  flags : List Bool
  st : PState
  i : Nat
deriving Repr

/-- One iteration of the character loop of `Mask::parse`. -/
def maskStep (m : MState) (c : Char) : MState :=
  match m.st with
  | .initial =>
    if isDigit10 c then
      if m.i < m.flags.length then
        { flags := m.flags.set m.i (decide (c.toNat - 48 ≠ 0)), st := .foundDigit, i := m.i + 1 }
      else { m with st := .accepted }
    else m
  | .foundDigit => if c = '.' then { m with st := .initial } else m
  | .accepted => m

/-- `Mask::parse` of `math.rs`: total, all four flags default to `true`. -/
def Mask.parse (str : List Char) : Mask :=
  let r := str.foldl maskStep ⟨[true, true, true, true], .initial, 0⟩
  ⟨r.flags.getD 0 true, r.flags.getD 1 true, r.flags.getD 2 true, r.flags.getD 3 true⟩

/-! ## `LogicalAddress` and its parser (`LogicalAddress::parse`) -/

structure LogicalAddress where
  id : Identifier
  mask : Mask
deriving DecidableEq, Repr

/-- Result of `LogicalAddress::parse` (a panic propagates from
`Identifier::parse`). -/
inductive LARes where
  | ok (a : LogicalAddress)
  | err (msg : String)
  | panic
deriving DecidableEq, Repr

def contentMsg : String := "Expected some content before the '/'"

/-- `LogicalAddress::parse` of `math.rs`: split on `'/'`; the part before the
first `'/'` must be non-empty and parse as an `Identifier`; the part after it
(when absent, `"1.1.1.1"`) is parsed as a `Mask`; later `'/'` pieces are
ignored (the Rust code calls `iter.next()` only twice). -/
def LogicalAddress.parse (input : List Char) : LARes :=
  let parts := splitOnChar '/' input
  let idPart := parts.headD []
  if idPart = [] then .err contentMsg
  else
    let maskPart := (parts.get? 1).getD ("1.1.1.1".toList)
    match Identifier.parse idPart with
    | .ok id => .ok ⟨id, Mask.parse maskPart⟩
    | .err m => .err m
    | .panic => .panic

/-! ## Splitting lemmas for `LogicalAddress::parse` -/

lemma splitOnChar_ne_nil (sep : Char) (l : List Char) : splitOnChar sep l ≠ [] := by
  cases l with
  | nil => simp [splitOnChar]
  | cons c t =>
    simp only [splitOnChar]
    cases splitOnChar sep t with
    | nil => simp
    | cons h r =>
      by_cases hc : c = sep <;> simp [hc]

lemma split_append_headD (sep : Char) (m : List Char) :
    ∀ s : List Char,
      (splitOnChar sep (s ++ sep :: m)).headD [] = (splitOnChar sep s).headD [] := by
  intro s
  induction s with
  | nil =>
    cases hm : splitOnChar sep m with
    | nil => exact absurd hm (splitOnChar_ne_nil sep m)
    | cons a r => simp [splitOnChar, hm]
  | cons c t ih =>
    cases h1 : splitOnChar sep (t ++ sep :: m) with
    | nil => exact absurd h1 (splitOnChar_ne_nil sep _)
    | cons h1h h1t =>
      cases h2 : splitOnChar sep t with
      | nil => exact absurd h2 (splitOnChar_ne_nil sep t)
      | cons h2h h2t =>
        rw [h1, h2] at ih
        have ih' : h1h = h2h := by simpa using ih
        by_cases hc : c = sep
        · simp [splitOnChar, h1, h2, hc]
        · simp [splitOnChar, h1, h2, hc, ih']

lemma split_cons_get1 (sep : Char) (c : Char) (t : List Char) (hc : c ≠ sep) :
    (splitOnChar sep (c :: t)).get? 1 = (splitOnChar sep t).get? 1 := by
  cases h : splitOnChar sep t with
  | nil => exact absurd h (splitOnChar_ne_nil sep t)
  | cons hh ht => simp [splitOnChar, h, if_neg hc]

lemma split_append_get1 (sep : Char) (m : List Char) (hm : splitOnChar sep m = [m]) :
    ∀ (s d : List Char),
      ((splitOnChar sep (s ++ sep :: m)).get? 1).getD d
        = ((splitOnChar sep s).get? 1).getD m := by
  intro s
  induction s with
  | nil => intro d; simp [splitOnChar, hm]
  | cons c t ih =>
    intro d
    by_cases hc : c = sep
    · subst hc
      cases h1 : splitOnChar c (t ++ c :: m) with
      | nil => exact absurd h1 (splitOnChar_ne_nil c _)
      | cons h1h h1t =>
        cases h2 : splitOnChar c t with
        | nil => exact absurd h2 (splitOnChar_ne_nil c t)
        | cons h2h h2t =>
          have hh := split_append_headD c m t
          rw [h1, h2] at hh
          simp only [List.headD_cons] at hh
          simp [splitOnChar, h1, h2, hh]
    · rw [List.cons_append, split_cons_get1 sep c _ hc, split_cons_get1 sep c t hc]
      exact ih d

/-- C8: for any id string `X`, `LogicalAddress::parse(X)` equals
`LogicalAddress::parse(X ++ "/1.1.1.1")`: omitting the mask suffix is
equivalent to supplying the all-true mask.  (This holds for every input,
including inputs that already contain a `'/'`, since the Rust code reads
only the first two `'/'`-separated pieces.) -/
theorem mask_default_equiv (s : List Char) :
    LogicalAddress.parse s = LogicalAddress.parse (s ++ ('/' :: "1.1.1.1".toList)) := by
  have hh := split_append_headD '/' ("1.1.1.1".toList) s
  have hg := split_append_get1 '/' ("1.1.1.1".toList) (by decide) s ("1.1.1.1".toList)
  simp only [LogicalAddress.parse, hh, hg]

/-! ## Error taxonomy of `Identifier::parse` / `LogicalAddress::parse` -/

/-- Loop invariant of `Identifier::parse`: the field counter `i` never
exceeds the number of `'.'` characters consumed, `allow_negative` holds
exactly from the third closed field on, and the `Accepted` state needs at
least four closed fields. -/
def IOk (m : IStep) (nd : Nat) : Prop :=
  match m with
  | .err => True
  | .run s => s.i ≤ nd ∧ (s.alln = true ↔ 3 ≤ s.i) ∧ (s.st = .accepted → 4 ≤ s.i)

lemma identStep_inv (str : List Char) (m : IStep) (c : Char) (nd : Nat)
    (h : IOk m nd) : IOk (identStep str m c) (nd + (if c = '.' then 1 else 0)) := by
  have hle : nd ≤ nd + (if c = '.' then 1 else 0) := Nat.le_add_right _ _
  cases m with
  | err => simp [identStep, IOk]
  | run s =>
    obtain ⟨h1, h2, h3⟩ := h
    cases hst : s.st with
    | initial =>
      simp only [identStep, hst]
      split
      · simp only [IOk]
        exact ⟨le_trans h1 hle, h2, by simp⟩
      · split
        · trivial
        · simp only [IOk]
          refine ⟨le_trans h1 hle, h2, ?_⟩
          simp
    | foundDigit =>
      simp only [identStep, hst]
      split
      · simp only [IOk]
        refine ⟨le_trans h1 hle, h2, ?_⟩
        simp
      · split
        · -- the `'.'` branch: `i` goes up together with the dot count
          rename_i hnodig hdot
          subst hdot
          split
          · simp only [IOk]
            refine ⟨by omega, ?_, by simp⟩
            split
            · rename_i hthree
              constructor
              · intro _; omega
              · intro _; rfl
            · rename_i hnethree
              rw [h2]
              omega
          · simp only [IOk]
            exact ⟨by omega, h2, fun _ => by omega⟩
        · simp only [IOk]
          refine ⟨?_, h2, ?_⟩
          · omega
          · simp [hst]
    | accepted =>
      simp only [identStep, hst]
      simp only [IOk]
      exact ⟨le_trans h1 hle, h2, fun _ => h3 hst⟩

lemma foldl_identStep_err (str : List Char) (l : List Char) :
    l.foldl (identStep str) .err = .err := by
  induction l with
  | nil => rfl
  | cons c t ih => simpa [identStep] using ih

lemma foldl_identStep_inv (str : List Char) (C : List Char) :
    ∀ (m : IStep) (nd : Nat), IOk m nd →
      IOk (C.foldl (identStep str) m) (nd + C.count '.') := by
  induction C with
  | nil => intro m nd h; simpa using h
  | cons c t ih =>
    intro m nd h
    have h' := identStep_inv str m c nd h
    have h'' := ih (identStep str m c) (nd + (if c = '.' then 1 else 0)) h'
    have hcount : (c :: t).count '.' = t.count '.' + (if c = '.' then 1 else 0) := by
      by_cases hc : c = '.' <;> simp [List.count_cons, hc]
    rw [List.foldl_cons]
    rw [hcount]
    have : nd + (t.count '.' + (if c = '.' then 1 else 0))
        = nd + (if c = '.' then 1 else 0) + t.count '.' := by omega
    rw [this]
    exact h''

lemma identStep_dot_st (str : List Char) (m : IStep) (s' : IState)
    (h : identStep str m '.' = .run s') : s'.st ≠ .foundDigit := by
  cases m with
  | err => simp [identStep] at h
  | run s =>
    cases hst : s.st with
    | initial =>
      simp only [identStep, hst] at h
      split at h
      · rename_i hcond
        exact absurd hcond (by cases s.alln <;> decide)
      · split at h
        · simp at h
        · cases h
          simp [hst]
    | foundDigit =>
      simp only [identStep, hst] at h
      split at h
      · rename_i hcond
        exact absurd hcond (by decide)
      · split at h
        · split at h
          · cases h
            simp
          · cases h
            simp
        · rename_i hnodot
          exact absurd trivial hnodot
    | accepted =>
      simp only [identStep, hst] at h
      cases h
      simp [hst]

/-- Running the `Identifier::parse` loop over `C ++ '-' :: rest` takes the
minus-sign early return, for any step-function input `str`, when `C` holds
at most two dots and is empty or ends with a dot (i.e. the `'-'` opens one
of the first three fields). -/
lemma run_minus_err (str C rest : List Char)
    (hdots : C.count '.' ≤ 2) (hlast : C = [] ∨ C.getLast? = some '.') :
    (C ++ '-' :: rest).foldl (identStep str) (.run identInit) = .err := by
  rw [List.foldl_append]
  have hinv := foldl_identStep_inv str C (.run identInit) 0
    ⟨by simp [identInit], by simp [identInit], by simp [identInit]⟩
  cases hC : C.foldl (identStep str) (.run identInit) with
  | err => rw [foldl_identStep_err]
  | run s =>
    rw [hC] at hinv
    obtain ⟨h1, h2, h3⟩ := hinv
    have hi : s.i ≤ 2 := le_trans h1 (by simpa using hdots)
    have halln : s.alln = false := by
      cases hA : s.alln
      · rfl
      · exact absurd (h2.mp hA) (by omega)
    have hst : s.st = .initial := by
      rcases hlast with hC0 | hlastdot
      · subst hC0
        simp only [List.foldl_nil] at hC
        cases hC
        rfl
      · have hCne : C ≠ [] := by
          intro h0; rw [h0] at hlastdot; simp at hlastdot
        have hdec : C.dropLast ++ [C.getLast hCne] = C := List.dropLast_append_getLast hCne
        have hlastval : C.getLast hCne = '.' := by
          have hgl := List.getLast?_eq_getLast C hCne
          rw [hgl] at hlastdot
          exact Option.some_injective _ hlastdot
        rw [← hdec, hlastval] at hC
        rw [List.foldl_append] at hC
        simp only [List.foldl_cons, List.foldl_nil] at hC
        have hne := identStep_dot_st str _ s hC
        cases hsts : s.st with
        | initial => rfl
        | foundDigit => exact absurd hsts hne
        | accepted => exact absurd (h3 hsts) (by omega)
    have hdig : isDigit10 '-' = false := by decide
    have hstep : identStep str (.run s) '-' = .err := by
      simp [identStep, hst, halln, hdig]
    rw [List.foldl_cons, hstep, foldl_identStep_err]

/-- A field among the first three that begins with `'-'` makes
`Identifier::parse` fail with the minus-sign error: the input decomposes as
`C ++ '-' :: rest` where `C` (everything before the offending field's first
character) holds at most two dots and is empty or ends with a dot. -/
lemma ident_parse_minus (C rest : List Char)
    (hdots : C.count '.' ≤ 2) (hlast : C = [] ∨ C.getLast? = some '.') :
    Identifier.parse (C ++ '-' :: rest) = .err minusMsg := by
  unfold Identifier.parse
  rw [run_minus_err (C ++ '-' :: rest) C rest hdots hlast]

lemma ident_err_msg (t : List Char) (m : String)
    (h : Identifier.parse t = .err m) : m = minusMsg := by
  unfold Identifier.parse at h
  cases hF : t.foldl (identStep t) (.run identInit) with
  | err =>
    rw [hF] at h
    cases h
    rfl
  | run s =>
    rw [hF] at h
    split at h
    · rename_i heq
      simp at heq
    · rename_i s' heq
      split at h
      · split at h
        · cases h
        · cases h
      · cases h

/-- C9: `LogicalAddress::parse` yields the "Expected some content before
the '/'" error exactly when the portion before the first `'/'` is empty;
every other error it yields is the minus-sign error; and it does yield the
minus-sign error whenever one of the first three dot-separated fields of
the id portion begins with `'-'` (the decomposition `C ++ '-' :: rest`
with `C` empty or dot-terminated and at most two dots states exactly
that). -/
theorem logical_address_error_taxonomy (s : List Char) :
    (LogicalAddress.parse s = .err contentMsg ↔ (splitOnChar '/' s).headD [] = []) ∧
    (∀ msg, LogicalAddress.parse s = .err msg → msg = contentMsg ∨ msg = minusMsg) ∧
    (∀ C rest, (splitOnChar '/' s).headD [] = C ++ '-' :: rest →
      C.count '.' ≤ 2 → (C = [] ∨ C.getLast? = some '.') →
      LogicalAddress.parse s = .err minusMsg) := by
  refine ⟨⟨?_, ?_⟩, ?_, ?_⟩
  · intro h
    by_contra hne
    simp only [LogicalAddress.parse] at h
    rw [if_neg hne] at h
    split at h
    · cases h
    · rename_i m hm
      cases h
      exact absurd (ident_err_msg _ _ hm) (by decide)
    · cases h
  · intro h
    simp only [LogicalAddress.parse]
    rw [if_pos h]
  · intro msg h
    simp only [LogicalAddress.parse] at h
    split at h
    · cases h
      exact Or.inl rfl
    · split at h
      · cases h
      · rename_i m hm
        cases h
        exact Or.inr (ident_err_msg _ _ hm)
      · cases h
  · intro C rest hdecomp hdots hlast
    have hne : (splitOnChar '/' s).headD [] ≠ [] := by
      rw [hdecomp]
      simp
    simp only [LogicalAddress.parse]
    rw [if_neg hne]
    rw [hdecomp, ident_parse_minus C rest hdots hlast]

/-- Witness for C9: the empty input produces the content error, and an id
whose first field begins with `'-'` produces the minus-sign error. -/
theorem logical_address_error_taxonomy_witness :
    LogicalAddress.parse [] = .err contentMsg ∧
      LogicalAddress.parse ("-1.1.1.1".toList) = .err minusMsg := by
  constructor
  · exact (logical_address_error_taxonomy []).1.mpr (by decide)
  · exact (logical_address_error_taxonomy ("-1.1.1.1".toList)).2.2 [] ("1.1.1.1".toList)
      (by decide) (by decide) (Or.inl rfl)

/-! ## Decimal text of numbers, for the round-trip law -/

/-- The character of a decimal digit. -/
def digitChar (d : Nat) : Char := Char.ofNat (48 + d)

/-- Standard decimal text of a natural number, most significant digit
first. -/
def natRepr (n : Nat) : List Char :=
  if n = 0 then ['0'] else (Nat.digits 10 n).reverse.map digitChar

/-- Standard decimal text of an integer: a `'-'` sign exactly for negative
values. -/
def intRepr (d : Int) : List Char :=
  if d < 0 then '-' :: natRepr d.natAbs else natRepr d.toNat

lemma digitChar_toNat (d : Nat) (h : d < 10) : (digitChar d).toNat = 48 + d := by
  interval_cases d <;> decide

lemma isDigit10_digitChar (d : Nat) (h : d < 10) : isDigit10 (digitChar d) = true := by
  interval_cases d <;> decide

lemma natRepr_all_digits (n : Nat) : (natRepr n).all isDigit10 = true := by
  unfold natRepr
  split
  · decide
  · rw [List.all_eq_true]
    intro x hx
    simp only [List.mem_map, List.mem_reverse] at hx
    obtain ⟨d, hd, rfl⟩ := hx
    exact isDigit10_digitChar d (Nat.digits_lt_base (by norm_num) hd)

lemma natRepr_ne_nil (n : Nat) : natRepr n ≠ [] := by
  unfold natRepr
  split
  · simp
  · simp [Nat.digits_ne_nil_iff_ne_zero, *]

lemma foldl_digitChars (L : List Nat) (hL : ∀ d ∈ L, d < 10) :
    ∀ v : Nat, (L.reverse.map digitChar).foldl (fun a c => a * 10 + (c.toNat - 48)) v
      = v * 10 ^ L.length + Nat.ofDigits 10 L := by
  induction L with
  | nil => intro v; simp [Nat.ofDigits]
  | cons d t ih =>
    intro v
    rw [List.reverse_cons, List.map_append, List.foldl_append]
    rw [ih (fun x hx => hL x (List.mem_cons_of_mem _ hx)) v]
    simp only [List.map_cons, List.map_nil, List.foldl_cons, List.foldl_nil]
    rw [digitChar_toNat d (hL d (by simp))]
    rw [Nat.ofDigits_cons]
    have hd : 48 + d - 48 = d := by omega
    rw [hd]
    simp only [List.length_cons, pow_succ]
    ring

lemma digitsToNat_natRepr (n : Nat) : digitsToNat (natRepr n) = n := by
  unfold natRepr digitsToNat
  split
  · subst n
    decide
  · rw [foldl_digitChars (Nat.digits 10 n) (fun d hd => Nat.digits_lt_base (by norm_num) hd) 0]
    simp [Nat.ofDigits_digits]

lemma parseNatCore_digits (l : List Char) (hne : l ≠ []) (hd : l.all isDigit10 = true) :
    parseNatCore l = some (digitsToNat l) := by
  unfold parseNatCore
  rw [if_pos ⟨hne, hd⟩]

lemma all_digits_head (c : Char) (t : List Char)
    (hd : (c :: t).all isDigit10 = true) : isDigit10 c = true := by
  simp only [List.all_cons, Bool.and_eq_true] at hd
  exact hd.1

lemma stripSign_digits (l : List Char) (hd : l.all isDigit10 = true) :
    stripSign l = l := by
  unfold stripSign
  split
  · rename_i t
    have := all_digits_head '+' t hd
    exact absurd this (by decide)
  · rfl

lemma signSplit_digits (l : List Char) (hd : l.all isDigit10 = true) :
    signSplit l = (1, l) := by
  unfold signSplit
  split
  · rename_i t
    have := all_digits_head '-' t hd
    exact absurd this (by decide)
  · rename_i t
    have := all_digits_head '+' t hd
    exact absurd this (by decide)
  · rfl

lemma parseUnsigned_digits (max : Nat) (l : List Char)
    (hne : l ≠ []) (hd : l.all isDigit10 = true) :
    parseUnsigned max l
      = if digitsToNat l ≤ max then some (digitsToNat l) else none := by
  unfold parseUnsigned
  rw [stripSign_digits l hd, parseNatCore_digits l hne hd]

lemma parseU16_natRepr (n : Nat) (h : n ≤ 65535) : parseU16 (natRepr n) = some n := by
  unfold parseU16
  rw [parseUnsigned_digits 65535 (natRepr n) (natRepr_ne_nil n) (natRepr_all_digits n)]
  rw [digitsToNat_natRepr]
  rw [if_pos h]

lemma parseSigned_digits (lo hi : Int) (l : List Char)
    (hne : l ≠ []) (hd : l.all isDigit10 = true) :
    parseSigned lo hi l
      = if lo ≤ (digitsToNat l : Int) ∧ (digitsToNat l : Int) ≤ hi
          then some ((digitsToNat l : Int)) else none := by
  unfold parseSigned
  rw [signSplit_digits l hd, parseNatCore_digits l hne hd]
  simp

lemma parseI16_intRepr (d : Int) (h1 : -32768 ≤ d) (h2 : d ≤ 32767) :
    parseI16 (intRepr d) = some d := by
  unfold parseI16 intRepr
  by_cases hneg : d < 0
  · rw [if_pos hneg]
    unfold parseSigned
    have hsplit : signSplit ('-' :: natRepr d.natAbs) = (-1, natRepr d.natAbs) := rfl
    rw [hsplit]
    rw [parseNatCore_digits (natRepr d.natAbs) (natRepr_ne_nil _) (natRepr_all_digits _)]
    simp only [digitsToNat_natRepr]
    rw [if_pos (by constructor <;> omega)]
    congr 1
    omega
  · rw [if_neg hneg]
    rw [parseSigned_digits _ _ _ (natRepr_ne_nil _) (natRepr_all_digits _)]
    rw [digitsToNat_natRepr]
    rw [if_pos (by constructor <;> omega)]
    congr 1
    omega

lemma run_digits_fd (str ds0 : List Char) (hd : ds0.all isDigit10 = true) :
    ∀ (s : IState), s.st = .foundDigit →
      ds0.foldl (identStep str) (.run s)
        = .run { s with de := s.de + ds0.length, idx := s.idx + ds0.length } := by
  induction ds0 with
  | nil => intro s hst; simp
  | cons ch t ih =>
    intro s hst
    simp only [List.all_cons, Bool.and_eq_true] at hd
    rw [List.foldl_cons]
    have hstep : identStep str (.run s) ch = .run { s with de := s.de + 1, idx := s.idx + 1 } := by
      simp [identStep, hst, hd.1]
    rw [hstep]
    rw [ih hd.2 _ (by simpa using hst)]
    simp only [List.length_cons]
    have e1 : s.de + 1 + t.length = s.de + (t.length + 1) := by omega
    have e2 : s.idx + 1 + t.length = s.idx + (t.length + 1) := by omega
    rw [e1, e2]

lemma run_token_init (str tok : List Char) (s : IState) (hst : s.st = .initial)
    (hshape : (tok ≠ [] ∧ tok.all isDigit10 = true)
      ∨ (∃ t2, tok = '-' :: t2 ∧ t2.all isDigit10 = true ∧ s.alln = true)) :
    tok.foldl (identStep str) (.run s)
      = .run { s with st := .foundDigit, ds := s.idx, de := s.idx + tok.length,
                      idx := s.idx + tok.length } := by
  rcases hshape with ⟨hne, hdig⟩ | ⟨t2, htok, hdig, halln⟩
  · cases tok with
    | nil => exact absurd rfl hne
    | cons ch t =>
      simp only [List.all_cons, Bool.and_eq_true] at hdig
      rw [List.foldl_cons]
      have hstep : identStep str (.run s) ch
          = .run { s with ds := s.idx, de := s.idx + 1, st := .foundDigit, idx := s.idx + 1 } := by
        simp [identStep, hst, hdig.1]
      rw [hstep]
      rw [run_digits_fd str t hdig.2 _ (by simp)]
      simp only [List.length_cons]
      have e1 : s.idx + 1 + t.length = s.idx + (t.length + 1) := by omega
      rw [e1]
  · subst htok
    rw [List.foldl_cons]
    have hstep : identStep str (.run s) '-'
        = .run { s with ds := s.idx, de := s.idx + 1, st := .foundDigit, idx := s.idx + 1 } := by
      simp [identStep, hst, halln, (by decide : isDigit10 '-' = false)]
    rw [hstep]
    rw [run_digits_fd str t2 hdig _ (by simp)]
    simp only [List.length_cons]
    have e1 : s.idx + 1 + t2.length = s.idx + (t2.length + 1) := by omega
    rw [e1]

lemma step_dot0 (str : List Char) (s : IState) (hst : s.st = .foundDigit) (hi : s.i = 0) :
    identStep str (.run s) '.'
      = .run { s with link := (parseU16 ((str.drop s.ds).take (s.de - s.ds))).getD 0,
                      i := 1, ds := 0, de := 0, st := .initial, idx := s.idx + 1 } := by
  simp [identStep, hst, hi, (by decide : isDigit10 '.' = false)]

lemma step_dot1 (str : List Char) (s : IState) (hst : s.st = .foundDigit) (hi : s.i = 1) :
    identStep str (.run s) '.'
      = .run { s with tile := (parseU16 ((str.drop s.ds).take (s.de - s.ds))).getD 0,
                      i := 2, ds := 0, de := 0, st := .initial, idx := s.idx + 1 } := by
  simp [identStep, hst, hi, (by decide : isDigit10 '.' = false)]

lemma step_dot2 (str : List Char) (s : IState) (hst : s.st = .foundDigit) (hi : s.i = 2) :
    identStep str (.run s) '.'
      = .run { s with seg := (parseU16 ((str.drop s.ds).take (s.de - s.ds))).getD 0,
                      i := 3, alln := true, ds := 0, de := 0, st := .initial, idx := s.idx + 1 } := by
  simp [identStep, hst, hi, (by decide : isDigit10 '.' = false)]

lemma slice_of_append (P tok suf : List Char) :
    (((P ++ (tok ++ suf)).drop P.length).take tok.length) = tok := by
  rw [List.drop_left, List.take_left]

lemma slice_at_end (P tok : List Char) :
    (((P ++ tok).drop P.length).take tok.length) = tok := by
  rw [List.drop_left]
  exact List.take_length tok

/-- C7: for all `a, b, c` in `[0, 65535]` and `d` in `[-32768, 32767]`,
`Identifier::parse` applied to the decimal dotted text `"a.b.c.d"` returns
`Ok` of the identifier with `link = a`, `tile = b`, `segment = c`,
`lane = d` (the text is built by `natRepr`/`intRepr`, standard decimal,
with a leading minus sign possible only in the fourth field). -/
theorem identifier_round_trip (a b c : Nat) (d : Int)
    (ha : a ≤ 65535) (hb : b ≤ 65535) (hc : c ≤ 65535)
    (hd1 : -32768 ≤ d) (hd2 : d ≤ 32767) :
    Identifier.parse
        (natRepr a ++ '.' :: (natRepr b ++ '.' :: (natRepr c ++ '.' :: intRepr d)))
      = .ok ⟨a, b, c, d⟩ := by
  set A := natRepr a with hA
  set B := natRepr b with hB
  set C := natRepr c with hC
  set D := intRepr d with hD
  set str := A ++ '.' :: (B ++ '.' :: (C ++ '.' :: D)) with hstr
  have hsplit1 : ∀ (g : IStep → Char → IStep) (m : IStep),
      str.foldl g m = ('.' :: (B ++ '.' :: (C ++ '.' :: D))).foldl g (A.foldl g m) := by
    intro g m
    rw [hstr, List.foldl_append]
  -- positions of the four tokens inside `str`
  have hsA : ((str.drop (0:Nat)).take (A.length - 0)) = A := by
    rw [hstr]
    simp only [List.drop_zero, Nat.sub_zero]
    apply List.take_left
  have hsB : ((str.drop (A.length + 1)).take B.length) = B := by
    have h1 : str = (A ++ ['.']) ++ (B ++ ('.' :: (C ++ '.' :: D))) := by
      rw [hstr]; simp
    have h2 : (A ++ ['.']).length = A.length + 1 := by simp
    rw [h1, ← h2]
    exact slice_of_append _ _ _
  have hsC : ((str.drop (A.length + 1 + B.length + 1)).take C.length) = C := by
    have h1 : str = ((A ++ '.' :: B) ++ ['.']) ++ (C ++ ('.' :: D)) := by
      rw [hstr]; simp
    have h2 : ((A ++ '.' :: B) ++ ['.']).length = A.length + 1 + B.length + 1 := by
      simp only [List.length_append, List.length_cons, List.length_nil]; omega
    rw [h1, ← h2]
    exact slice_of_append _ _ _
  have hsD : ((str.drop (A.length + 1 + B.length + 1 + C.length + 1)).take D.length) = D := by
    have h1 : str = ((A ++ '.' :: (B ++ '.' :: C)) ++ ['.']) ++ D := by
      rw [hstr]; simp
    have h2 : ((A ++ '.' :: (B ++ '.' :: C)) ++ ['.']).length
        = A.length + 1 + B.length + 1 + C.length + 1 := by
      simp only [List.length_append, List.length_cons, List.length_nil]; omega
    rw [h1, ← h2]
    exact slice_at_end _ _
  -- run the machine through the four tokens and three dots
  have h1 : A.foldl (identStep str) (.run identInit)
      = .run ⟨0, 0, 0, 0, .foundDigit, 0, A.length, 0, false, A.length⟩ := by
    rw [run_token_init str A identInit rfl (Or.inl ⟨natRepr_ne_nil a, natRepr_all_digits a⟩)]
    simp [identInit]
  have h2 : identStep str (.run ⟨0, 0, 0, 0, .foundDigit, 0, A.length, 0, false, A.length⟩) '.'
      = .run ⟨a, 0, 0, 0, .initial, 0, 0, 1, false, A.length + 1⟩ := by
    rw [step_dot0 str _ rfl rfl]
    simp only [hsA, parseU16_natRepr a ha]
    rfl
  have h3 : B.foldl (identStep str) (.run ⟨a, 0, 0, 0, .initial, 0, 0, 1, false, A.length + 1⟩)
      = .run ⟨a, 0, 0, 0, .foundDigit, A.length + 1, A.length + 1 + B.length, 1, false,
              A.length + 1 + B.length⟩ := by
    rw [run_token_init str B _ rfl (Or.inl ⟨natRepr_ne_nil b, natRepr_all_digits b⟩)]
  have h4 : identStep str (.run ⟨a, 0, 0, 0, .foundDigit, A.length + 1, A.length + 1 + B.length, 1,
        false, A.length + 1 + B.length⟩) '.'
      = .run ⟨a, b, 0, 0, .initial, 0, 0, 2, false, A.length + 1 + B.length + 1⟩ := by
    rw [step_dot1 str _ rfl rfl]
    have hsub : A.length + 1 + B.length - (A.length + 1) = B.length := by omega
    simp only [hsub, hsB, parseU16_natRepr b hb]
    rfl
  have h5 : C.foldl (identStep str)
        (.run ⟨a, b, 0, 0, .initial, 0, 0, 2, false, A.length + 1 + B.length + 1⟩)
      = .run ⟨a, b, 0, 0, .foundDigit, A.length + 1 + B.length + 1,
              A.length + 1 + B.length + 1 + C.length, 2, false,
              A.length + 1 + B.length + 1 + C.length⟩ := by
    rw [run_token_init str C _ rfl (Or.inl ⟨natRepr_ne_nil c, natRepr_all_digits c⟩)]
  have h6 : identStep str (.run ⟨a, b, 0, 0, .foundDigit, A.length + 1 + B.length + 1,
        A.length + 1 + B.length + 1 + C.length, 2, false,
        A.length + 1 + B.length + 1 + C.length⟩) '.'
      = .run ⟨a, b, c, 0, .initial, 0, 0, 3, true, A.length + 1 + B.length + 1 + C.length + 1⟩ := by
    rw [step_dot2 str _ rfl rfl]
    have hsub : A.length + 1 + B.length + 1 + C.length - (A.length + 1 + B.length + 1)
        = C.length := by omega
    simp only [hsub, hsC, parseU16_natRepr c hc]
    rfl
  have h7 : D.foldl (identStep str)
        (.run ⟨a, b, c, 0, .initial, 0, 0, 3, true, A.length + 1 + B.length + 1 + C.length + 1⟩)
      = .run ⟨a, b, c, 0, .foundDigit, A.length + 1 + B.length + 1 + C.length + 1,
              A.length + 1 + B.length + 1 + C.length + 1 + D.length, 3, true,
              A.length + 1 + B.length + 1 + C.length + 1 + D.length⟩ := by
    have hshape : (D ≠ [] ∧ D.all isDigit10 = true)
        ∨ (∃ t2, D = '-' :: t2 ∧ t2.all isDigit10 = true ∧
            (⟨a, b, c, 0, .initial, 0, 0, 3, true,
              A.length + 1 + B.length + 1 + C.length + 1⟩ : IState).alln = true) := by
      by_cases hneg : d < 0
      · right
        exact ⟨natRepr d.natAbs, by rw [hD, intRepr, if_pos hneg], natRepr_all_digits _, rfl⟩
      · left
        constructor
        · rw [hD, intRepr, if_neg hneg]
          exact natRepr_ne_nil _
        · rw [hD, intRepr, if_neg hneg]
          exact natRepr_all_digits _
    rw [run_token_init str D _ rfl hshape]
  have hfold : str.foldl (identStep str) (.run identInit)
      = .run ⟨a, b, c, 0, .foundDigit, A.length + 1 + B.length + 1 + C.length + 1,
              A.length + 1 + B.length + 1 + C.length + 1 + D.length, 3, true,
              A.length + 1 + B.length + 1 + C.length + 1 + D.length⟩ := by
    rw [hsplit1, h1, List.foldl_cons, h2, List.foldl_append, h3, List.foldl_cons, h4,
        List.foldl_append, h5, List.foldl_cons, h6, h7]
  have hsub : A.length + 1 + B.length + 1 + C.length + 1 + D.length
      - (A.length + 1 + B.length + 1 + C.length + 1) = D.length := by omega
  simp only [Identifier.parse, hfold, hsub, hsD, hD, parseI16_intRepr d hd1 hd2]
  simp
/-- Witness for C7 at `(2, 10, 2, -1)`, the seed scenario of the spec. -/
theorem identifier_round_trip_witness :
    Identifier.parse
        (natRepr 2 ++ '.' :: (natRepr 10 ++ '.' :: (natRepr 2 ++ '.' :: intRepr (-1))))
      = .ok ⟨2, 10, 2, -1⟩ :=
  identifier_round_trip 2 10 2 (-1) (by norm_num) (by norm_num) (by norm_num)
    (by norm_num) (by norm_num)

/-! ## Angles and the junction resolver -/

/-- The `while angle >= 360 { angle -= 360 }` loop of `hemisphere`, in closed
form: for naturals the loop computes the remainder mod 360. -/
def reduce360 (x : Nat) : Nat := x % 360

/-- `hemisphere` of `math.rs`: 0 for headings in `[0,90) ∪ [270,360)` after
normalisation, else 1. -/
def hemisphere (input : Nat) : Nat :=
  let angle := reduce360 input
  if angle < 90 ∨ (270 ≤ angle ∧ angle < 360) then 0 else 1

/-- The Rust `heading as u32` cast on a finite `f64`: truncation, saturating
at 0 below and at `u32::MAX` above. -/
def ratToU32 (h : ℚ) : Nat :=
  if h < 0 then 0 else min (⌊h⌋).toNat 4294967295

/-- The `while x >= 360 { x -= 360 }` loop on a (finite) `f64`, in closed
form: values less than 360 (including negative ones) are unchanged, larger
ones are reduced by the exact multiple of 360 that lands in `[0, 360)`. -/
def down360 (x : ℚ) : ℚ :=
  if 360 ≤ x then x - 360 * ⌊x / 360⌋ else x

/-- The `while x < 0 { x += 360 }` loop on a (finite) `f64`, in closed form:
non-negative values are unchanged, negative ones are raised by the exact
multiple of 360 that lands in `[0, 360)`. -/
def up360 (x : ℚ) : ℚ :=
  if x < 0 then x + 360 * ⌈-x / 360⌉ else x

/-- `find_reciprocal_heading` of `math.rs`: add 180° and reduce by 360 while
at least 360. -/
def find_reciprocal_heading (heading : ℚ) : ℚ := down360 (heading + 180)

/-- The `TurnDirection` enum. -/
inductive TurnDirection where
  | Straight
  | Left
  | Right
  | UTurn
deriving DecidableEq, Repr

/-- The `CompassDirection` enum. -/
inductive CompassDirection where
  | North
  | NorthEast
  | East
  | SouthEast
  | South
  | SouthWest
  | West
  | NorthWest
deriving DecidableEq, Repr

/-- A junction adjacency: outgoing link id and exit heading (a `u32`). -/
structure Exit where
  link_id : Nat
  exit : Nat
deriving DecidableEq, Repr

/-- A junction: id plus ordered exits (`links` in the source). -/
structure Junction where
  id : Nat
  links : List Exit
deriving DecidableEq, Repr

/-- Comparison of a candidate delta with the running closest delta;
`none` models the initial `f64::MAX`. -/
def oLT (d : ℚ) : Option ℚ → Bool
  | none => true
  | some c => decide (d < c)

/-- The index loop of `find_entry`: track the closest delta and index. -/
def findEntryAux (rh : ℚ) : List Exit → Nat → Option ℚ → Nat → Nat
  | [], _, _, ci => ci
  | e :: rest, i, cd, ci =>
    let delta := |((e.exit : ℚ)) - rh|
    if oLT delta cd then findEntryAux rh rest (i + 1) (some delta) i
    else findEntryAux rh rest (i + 1) cd ci

/-- `Junction::find_entry`: the exit closest to the reciprocal of the
arrival heading; index 0 when the junction has no exits. -/
def Junction.find_entry (j : Junction) (heading : ℚ) : Nat :=
  findEntryAux (find_reciprocal_heading heading) j.links 0 none 0

/-- The index loop of `find_exit_from_heading`: track the closest delta and
index among exits in the requested hemisphere (the Rust `&&` evaluates the
delta comparison first, then the hemisphere test). -/
def fehAux (h : ℚ) (hh : Nat) : List Exit → Nat → Option ℚ → Option Nat → Option Nat
  | [], _, _, ei => ei
  | e :: rest, i, cd, ei =>
    let delta := |((e.exit : ℚ)) - h|
    if oLT delta cd && decide (hemisphere e.exit = hh) then
      fehAux h hh rest (i + 1) (some delta) (some i)
    else fehAux h hh rest (i + 1) cd ei

/-- `Junction::find_exit_from_heading`: closest exit restricted to the
hemisphere of the desired heading; `none` models the `usize::MAX`
sentinel. -/
def Junction.find_exit_from_heading (j : Junction) (heading : ℚ) : Option Nat :=
  fehAux heading (hemisphere (ratToU32 heading)) j.links 0 none none

/-- `Junction::find_relative_exit`: `(entry - n) mod len` with the Rust
truncated `%` followed by the `while < 0` fixup.  Rust panics (division by
zero) on a junction with no links: modelled as `none`. -/
def Junction.find_relative_exit (j : Junction) (entry_index relative_exit : Nat) : Option Nat :=
  if j.links.length = 0 then none
  else
    let t : Int := Int.tmod ((entry_index : Int) - (relative_exit : Int)) (j.links.length : Int)
    let t' : Int := if t < 0 then t + (j.links.length : Int) else t
    some t'.toNat

/-- `Junction::find_exit_from_turn_direction`: synthesise a heading from
the entry's reciprocal and delegate.  The Rust code indexes
`links[entry_index]`, a panic when out of range: modelled as the outer
`none`. -/
def Junction.find_exit_from_turn_direction (j : Junction) (entry_index : Nat)
    (dir : TurnDirection) : Option (Option Nat) :=
  match j.links.get? entry_index with
  | none => none
  | some e =>
    let entry := find_reciprocal_heading ((e.exit : ℚ))
    let heading : ℚ := match dir with
      | .Straight => entry
      | .Left => entry + 90
      | .Right => entry - 90
      | .UTurn => entry + 180
    some (j.find_exit_from_heading (up360 (down360 heading)))

/-- The compass-to-heading mapping exactly as written in
`find_exit_from_compass` (note `SouthEast => 270-45`, `SouthWest =>
180-45`). -/
def compassHeadingCode : CompassDirection → Nat
  | .North => 0
  | .NorthEast => 315
  | .East => 270
  | .SouthEast => 270 - 45
  | .South => 180
  | .SouthWest => 180 - 45
  | .West => 90
  | .NorthWest => 45

/-- `Junction::find_exit_from_compass`: map the direction to a heading and
delegate to `find_exit_from_heading`. -/
def Junction.find_exit_from_compass (j : Junction) (dir : CompassDirection) : Option Nat :=
  j.find_exit_from_heading ((compassHeadingCode dir : Nat) : ℚ)

/-- The compass mapping exactly as the specification states it:
North=0, NorthWest=45, West=90, SouthWest=135, South=180, SouthEast=225,
East=270, NorthEast=315 degrees. -/
def claimCompassHeading : CompassDirection → Nat
  | .North => 0
  | .NorthWest => 45
  | .West => 90
  | .SouthWest => 135
  | .South => 180
  | .SouthEast => 225
  | .East => 270
  | .NorthEast => 315

/-- C6: for every junction and compass direction `d`,
`find_exit_from_compass(d)` equals `find_exit_from_heading(m(d))` where `m`
is the map North→0, NorthWest→45, West→90, SouthWest→135, South→180,
SouthEast→225, East→270, NorthEast→315. -/
theorem find_exit_from_compass_spec (j : Junction) (d : CompassDirection) :
    j.find_exit_from_compass d
      = j.find_exit_from_heading ((claimCompassHeading d : Nat) : ℚ) := by
  cases d <;> rfl


/-- Loop invariant of `find_exit_from_heading` after examining the first
`i` exits: either no exit matched the hemisphere yet, or the tracked pair
is the closest matching exit so far, with ties resolved to the lowest
index. -/
def FehInv (L : List Exit) (h : ℚ) (hh : Nat) (i : Nat)
    (cd : Option ℚ) (ei : Option Nat) : Prop :=
  (cd = none ∧ ei = none ∧
    ∀ m (hm : m < L.length), m < i → hemisphere (L.get ⟨m, hm⟩).exit ≠ hh)
  ∨ (∃ k, ∃ hk : k < L.length, k < i ∧
      cd = some (|((L.get ⟨k, hk⟩).exit : ℚ) - h|) ∧ ei = some k ∧
      hemisphere (L.get ⟨k, hk⟩).exit = hh ∧
      (∀ m (hm : m < L.length), m < i → hemisphere (L.get ⟨m, hm⟩).exit = hh →
        |((L.get ⟨k, hk⟩).exit : ℚ) - h| ≤ |((L.get ⟨m, hm⟩).exit : ℚ) - h|) ∧
      (∀ m (hm : m < L.length), m < k → hemisphere (L.get ⟨m, hm⟩).exit = hh →
        |((L.get ⟨k, hk⟩).exit : ℚ) - h| < |((L.get ⟨m, hm⟩).exit : ℚ) - h|))

lemma fehAux_spec (h : ℚ) (hh : Nat) (L : List Exit) :
    ∀ (rest : List Exit) (i : Nat) (cd : Option ℚ) (ei : Option Nat),
      L.drop i = rest → i ≤ L.length →
      FehInv L h hh i cd ei →
      ∃ cd', FehInv L h hh L.length cd' (fehAux h hh rest i cd ei) := by
  intro rest
  induction rest with
  | nil =>
    intro i cd ei hdrop hle hinv
    have hlen : i = L.length := by
      have := List.drop_eq_nil_iff.mp hdrop
      omega
    subst hlen
    exact ⟨cd, hinv⟩
  | cons e rest' ih =>
    intro i cd ei hdrop hle hinv
    have hi : i < L.length := by
      by_contra hge
      rw [List.drop_eq_nil_iff.mpr (by omega)] at hdrop
      cases hdrop
    have hsplit := List.drop_eq_getElem_cons hi
    rw [hdrop] at hsplit
    injection hsplit with he hrest
    have hgete : L.get ⟨i, hi⟩ = e := by
      rw [List.get_eq_getElem]
      exact he.symm
    simp only [fehAux]
    split
    · rename_i hcond
      rw [Bool.and_eq_true] at hcond
      have holt : oLT (|((e.exit : ℚ)) - h|) cd = true := hcond.1
      have hhemi : hemisphere e.exit = hh := of_decide_eq_true hcond.2
      refine ih (i + 1) _ _ hrest.symm (by omega) ?_
      right
      refine ⟨i, hi, by omega, by rw [hgete], rfl, by rw [hgete]; exact hhemi, ?_, ?_⟩
      · intro m hm hmi hhm
        rcases Nat.lt_succ_iff_lt_or_eq.mp hmi with hlt | heq
        · rcases hinv with ⟨hcd, hei, hnone⟩ | ⟨k0, hk0, hki, hcd0, hei0, hhk0, hmin0, _⟩
          · exact absurd hhm (hnone m hm hlt)
          · rw [hcd0] at holt
            have hlt0 : |((e.exit : ℚ)) - h| < |((L.get ⟨k0, hk0⟩).exit : ℚ) - h| := by
              have := of_decide_eq_true holt
              exact this
            rw [hgete]
            exact le_of_lt (lt_of_lt_of_le hlt0 (hmin0 m hm hlt hhm))
        · subst heq
          rw [hgete]
      · intro m hm hmk hhm
        rcases hinv with ⟨hcd, hei, hnone⟩ | ⟨k0, hk0, hki, hcd0, hei0, hhk0, hmin0, _⟩
        · exact absurd hhm (hnone m hm hmk)
        · rw [hcd0] at holt
          have hlt0 : |((e.exit : ℚ)) - h| < |((L.get ⟨k0, hk0⟩).exit : ℚ) - h| :=
            of_decide_eq_true holt
          rw [hgete]
          exact lt_of_lt_of_le hlt0 (hmin0 m hm hmk hhm)
    · rename_i hcond
      rw [Bool.and_eq_true] at hcond
      refine ih (i + 1) _ _ hrest.symm (by omega) ?_
      rcases hinv with ⟨hcd, hei, hnone⟩ | ⟨k0, hk0, hki, hcd0, hei0, hhk0, hmin0, hstrict0⟩
      · left
        refine ⟨hcd, hei, ?_⟩
        intro m hm hmi
        rcases Nat.lt_succ_iff_lt_or_eq.mp hmi with hlt | heq
        · exact hnone m hm hlt
        · subst heq
          rw [hgete]
          intro hhm
          apply hcond
          constructor
          · rw [hcd]
            rfl
          · exact decide_eq_true hhm
      · right
        refine ⟨k0, hk0, by omega, hcd0, hei0, hhk0, ?_, hstrict0⟩
        intro m hm hmi hhm
        rcases Nat.lt_succ_iff_lt_or_eq.mp hmi with hlt | heq
        · exact hmin0 m hm hlt hhm
        · subst heq
          rw [hgete] at hhm ⊢
          have hfalse : oLT (|((e.exit : ℚ)) - h|) cd = false := by
            cases holt : oLT (|((e.exit : ℚ)) - h|) cd
            · rfl
            · exact absurd ⟨holt, decide_eq_true hhm⟩ hcond
          rw [hcd0] at hfalse
          have : ¬ (|((e.exit : ℚ)) - h| < |((L.get ⟨k0, hk0⟩).exit : ℚ) - h|) :=
            of_decide_eq_false hfalse
          exact le_of_not_lt this

/-- C5: `find_exit_from_heading` returns the sentinel (`none`, standing for
the Rust `usize::MAX`) exactly when the junction has no exit whose heading
lies in the same hemisphere as the desired heading; otherwise it returns
the index of a same-hemisphere exit whose heading minimises the absolute
difference to the desired heading, ties broken to the lowest index (every
earlier same-hemisphere exit is strictly farther). -/
theorem find_exit_from_heading_spec (j : Junction) (h : ℚ) :
    (j.find_exit_from_heading h = none ↔
      ∀ e ∈ j.links, hemisphere e.exit ≠ hemisphere (ratToU32 h)) ∧
    (∀ k, j.find_exit_from_heading h = some k →
      ∃ hk : k < j.links.length,
        hemisphere (j.links.get ⟨k, hk⟩).exit = hemisphere (ratToU32 h) ∧
        (∀ m (hm : m < j.links.length),
          hemisphere (j.links.get ⟨m, hm⟩).exit = hemisphere (ratToU32 h) →
          |((j.links.get ⟨k, hk⟩).exit : ℚ) - h| ≤ |((j.links.get ⟨m, hm⟩).exit : ℚ) - h|) ∧
        (∀ m (hm : m < j.links.length), m < k →
          hemisphere (j.links.get ⟨m, hm⟩).exit = hemisphere (ratToU32 h) →
          |((j.links.get ⟨k, hk⟩).exit : ℚ) - h| < |((j.links.get ⟨m, hm⟩).exit : ℚ) - h|)) := by
  obtain ⟨cd', hinv⟩ := fehAux_spec h (hemisphere (ratToU32 h)) j.links j.links 0 none none
    (List.drop_zero _) (Nat.zero_le _)
    (Or.inl ⟨rfl, rfl, fun m hm hcon => absurd hcon (Nat.not_lt_zero m)⟩)
  have hres : fehAux h (hemisphere (ratToU32 h)) j.links 0 none none
      = j.find_exit_from_heading h := rfl
  rw [hres] at hinv
  constructor
  · constructor
    · intro hnone
      rcases hinv with ⟨_, _, hall⟩ | ⟨k0, hk0, _, _, hei0, _, _, _⟩
      · intro e he
        obtain ⟨⟨m, hm⟩, rfl⟩ := List.mem_iff_get.mp he
        exact hall m hm hm
      · rw [hnone] at hei0
        cases hei0
    · intro hall
      rcases hinv with ⟨_, hei, _⟩ | ⟨k0, hk0, _, _, hei0, hhk0, _, _⟩
      · exact hei
      · exact absurd hhk0 (hall _ (List.get_mem j.links k0 hk0))
  · intro k hk
    rcases hinv with ⟨_, hei, _⟩ | ⟨k0, hk0, _, _, hei0, hhk0, hmin0, hstrict0⟩
    · rw [hk] at hei
      cases hei
    · rw [hk] at hei0
      injection hei0 with hkk
      subst hkk
      exact ⟨hk0, hhk0, fun m hm hhm => hmin0 m hm hm hhm,
        fun m hm hmk hhm => hstrict0 m hm hmk hhm⟩

/-- Witness for C5: a junction whose single exit heads 90° has no exit in
the hemisphere of heading 0 (sentinel returned); and when the result is an
index the characterisation applies, here at heading 90. -/
theorem find_exit_from_heading_spec_witness :
    Junction.find_exit_from_heading ⟨2, [⟨1, 90⟩]⟩ 0 = none ∧
    ∃ hk : 0 < (⟨2, [⟨1, 90⟩]⟩ : Junction).links.length,
      hemisphere ((⟨2, [⟨1, 90⟩]⟩ : Junction).links.get ⟨0, hk⟩).exit
        = hemisphere (ratToU32 90) := by
  constructor
  · exact (find_exit_from_heading_spec ⟨2, [⟨1, 90⟩]⟩ 0).1.mpr (by decide)
  · obtain ⟨hk, hhemi, _, _⟩ :=
      (find_exit_from_heading_spec ⟨2, [⟨1, 90⟩]⟩ 90).2 0 (by decide)
    exact ⟨hk, hhemi⟩
/-! ## Turn grammar (`FromStr` of `Turn`, `TurnMultiplicity`, `TurningPattern`) -/

/-- The `Turn` enum: relative turn, compass bearing, numbered exit (`u8`),
absolute heading (`u32`). -/
inductive Turn where
  | Relative (dir : TurnDirection)
  | Compass (dir : CompassDirection)
  | Exit (n : Nat)
  | Heading (deg : Nat)
deriving DecidableEq, Repr

/-- The `TurnMultiplicity` enum. -/
inductive TurnMultiplicity where
  | Count (n : Nat)
  | Always
deriving DecidableEq, Repr

/-- A turn plus its multiplicity. -/
structure TurningPattern where
  turn : Turn
  count : TurnMultiplicity
deriving DecidableEq, Repr

/-- Outcome of a Rust `FromStr`, a `panic` marking a failed `unwrap`
inside the parser. -/
inductive PRes (α : Type) where
  | ok (a : α)
  | err
  | panic
deriving DecidableEq, Repr

/-- `TurnDirection::from_str` (total, returns `Result`). -/
def parseTurnDirection (s : List Char) : Option TurnDirection :=
  if s = "Left".toList then some .Left
  else if s = "Right".toList then some .Right
  else if s = "Straight".toList then some .Straight
  else if s = "UTurn".toList then some .UTurn
  else none

/-- `CompassDirection::from_str` (total, returns `Result`). -/
def parseCompassDirection (s : List Char) : Option CompassDirection :=
  if s = "North".toList then some .North
  else if s = "NorthEast".toList then some .NorthEast
  else if s = "East".toList then some .East
  else if s = "SouthEast".toList then some .SouthEast
  else if s = "South".toList then some .South
  else if s = "SouthWest".toList then some .SouthWest
  else if s = "West".toList then some .West
  else if s = "NorthWest".toList then some .NorthWest
  else none

/-- `Turn::from_str`: split on `':'`; a recognised tag with a malformed
payload panics (the Rust code unwraps the payload parse); anything that is
not exactly two parts, or an unknown tag, is an `Err`. -/
def Turn.fromStr (s : List Char) : PRes Turn :=
  match splitOnChar ':' s with
  | [which, dir] =>
    if which = "Relative".toList then
      match parseTurnDirection dir with
      | some d => .ok (.Relative d)
      | none => .panic
    else if which = "Compass".toList then
      match parseCompassDirection dir with
      | some d => .ok (.Compass d)
      | none => .panic
    else if which = "Exit".toList then
      match parseU8 dir with
      | some n => .ok (.Exit n)
      | none => .panic
    else if which = "Heading".toList then
      match parseU32 dir with
      | some n => .ok (.Heading n)
      | none => .panic
    else .err
  | _ => .err

/-- `TurnMultiplicity::from_str`: `Count:<u32>` (malformed count panics)
or `Always`. -/
def TurnMultiplicity.fromStr (s : List Char) : PRes TurnMultiplicity :=
  match splitOnChar ':' s with
  | [a, cnt] =>
    if a = "Count".toList then
      match parseU32 cnt with
      | some n => .ok (.Count n)
      | none => .panic
    else .err
  | [a] => if a = "Always".toList then .ok .Always else .err
  | _ => .err

/-- Rust `str::split_whitespace`: maximal non-whitespace runs. -/
def splitWsAux : List Char → List Char → List (List Char)
  | [], acc => if acc = [] then [] else [acc.reverse]
  | c :: t, acc =>
    if isWhite c then
      if acc = [] then splitWsAux t [] else acc.reverse :: splitWsAux t []
    else splitWsAux t (c :: acc)

def splitWs (l : List Char) : List (List Char) := splitWsAux l []

/-- Rust slice `chunks(2)`. -/
def chunks2 {α : Type} : List α → List (List α)
  | [] => []
  | [a] => [[a]]
  | a :: b :: t => [a, b] :: chunks2 t

/-- Rust `join(" ")` on a list of tokens. -/
def joinSp : List (List Char) → List Char
  | [] => []
  | [a] => a
  | a :: rest => a ++ ' ' :: joinSp rest

/-- `TurningPattern::from_str`: split on whitespace; anything that is not
exactly two tokens is an `Err`; with two tokens the Rust code unwraps both
inner parses, so any inner `Err` (an unrecognised turn or multiplicity)
becomes a panic. -/
def TurningPattern.fromStr (s : List Char) : PRes TurningPattern :=
  match splitWs s with
  | [turn, mult] =>
    match Turn.fromStr turn with
    | .ok t =>
      match TurnMultiplicity.fromStr mult with
      | .ok m => .ok ⟨t, m⟩
      | _ => .panic
    | _ => .panic
  | _ => .err

/-! ## `Route` and its parser (`Route::parse`) -/

/-- A parsed route query. -/
structure Route where
  start_link : Nat
  offset : ℚ
  distance : ℚ
  trav_dir : Int
  patterns : List TurningPattern
deriving DecidableEq, Repr

/-- `Route::empty`. -/
def Route.empty : Route := ⟨0, 0, 0, 1, []⟩

/-- The `RouteParsing` enum of `math.rs`. -/
inductive RouteParsing where
  | ParsingStartLink
  | ParsingSpace
  | ParsingOffset
  | ParsingDistance
  | ParsingTravDir
  | ParsingTurnPattern
  | ParsingFinished
deriving DecidableEq, Repr

/-- The mutable locals of `Route::parse`: the slice cursors `start` and
`end` (here `stop`, `end` being reserved), the state, the pending
`next_state` and the route built so far. -/
structure RState where
  start : Nat
  stop : Nat
  st : RouteParsing
  next : RouteParsing
  retval : Route
deriving Repr

/-- `str::trim_start` (by Unicode whitespace). -/
def trimStartL (l : List Char) : List Char := l.dropWhile isWhite

/-- The inclusive slice `input[a..=b]` used by `Route::parse`. -/
def sliceIncl (l : List Char) (a b : Nat) : List Char := (l.drop a).take (b + 1 - a)

/-- The `for chunk in parts.chunks(2)` loop of the `ParsingTurnPattern`
branch: parse each joined chunk, push the `Ok`s, skip the `Err`s (the
unmatched trailing token), propagate a panic as `none`. -/
def pushPatterns (patterns : List TurningPattern) :
    List (List (List Char)) → Option (List TurningPattern)
  | [] => some patterns
  | ch :: rest =>
    match TurningPattern.fromStr (joinSp ch) with
    | .ok t => pushPatterns (patterns ++ [t]) rest
    | .err => pushPatterns patterns rest
    | .panic => none

/-- One iteration of the character loop of `Route::parse`.  `input` is the
whole (already trimmed) input, needed for the slices; `none` is a panic
inside a turn-pattern chunk. -/
def routeStep (input : List Char) (s : RState) (c : Char) : Option RState :=
  match s.st with
  | .ParsingStartLink =>
    if ¬ isWhite c then some { s with stop := s.stop + 1 }
    else some { s with
      retval := { s.retval with start_link := (parseU16 (input.take s.stop)).getD 0 },
      start := s.stop + 1, stop := s.stop + 1,
      st := .ParsingSpace, next := .ParsingOffset }
  | .ParsingSpace =>
    if isWhite c then some { s with start := s.start + 1 }
    else some { s with st := s.next, stop := s.start }
  | .ParsingOffset =>
    if ¬ isWhite c then some { s with stop := s.stop + 1 }
    else some { s with
      retval := { s.retval with
        offset := (parseF64 (trimStartL (sliceIncl input s.start s.stop))).getD 0 },
      start := s.stop + 2, stop := s.stop + 2,
      st := .ParsingSpace, next := .ParsingDistance }
  | .ParsingDistance =>
    if ¬ isWhite c then some { s with stop := s.stop + 1 }
    else some { s with
      retval := { s.retval with
        distance := (parseF64 (trimStartL (sliceIncl input s.start s.stop))).getD 0 },
      start := s.stop + 2,
      st := .ParsingSpace, next := .ParsingTravDir }
  | .ParsingTravDir =>
    if ¬ isWhite c then some { s with stop := s.stop + 1 }
    else some { s with
      retval := { s.retval with
        trav_dir := (parseI32 (trimStartL (sliceIncl input s.start s.stop))).getD 0 },
      start := s.stop + 2,
      st := .ParsingSpace, next := .ParsingTurnPattern }
  | .ParsingTurnPattern =>
    match pushPatterns s.retval.patterns (chunks2 (splitWs (input.drop s.start))) with
    | some ps =>
      some { s with retval := { s.retval with patterns := ps }, st := .ParsingFinished }
    | none => none
  | .ParsingFinished => some s

/-- Run the character loop. -/
def runRoute (inp : List Char) (m : Option RState) (cs : List Char) : Option RState :=
  cs.foldl (fun acc c => acc.bind (fun s => routeStep inp s c)) m

/-- The `match state` after the loop of `Route::parse`: a pending distance
or a pending single turn token is closed; everything else returns as is. -/
def routeFinalize (input : List Char) (s : RState) : Option Route :=
  match s.st with
  | .ParsingDistance =>
    some { s.retval with
      distance := (parseF64 (trimStartL (sliceIncl input s.start s.stop))).getD 0 }
  | .ParsingTurnPattern =>
    match TurningPattern.fromStr (trimStartL (sliceIncl input s.start s.stop)) with
    | .ok t => some { s.retval with patterns := s.retval.patterns ++ [t] }
    | .err => some s.retval
    | .panic => none
  | _ => some s.retval

def routeInit : RState := ⟨0, 0, .ParsingStartLink, .ParsingStartLink, Route.empty⟩

/-- `Route::parse` of `math.rs`: trim leading whitespace, run the machine,
close a pending field.  `none` models a Rust panic (an `unwrap` inside
`TurningPattern::from_str` on an unrecognised pair). -/
def Route.parse (input : List Char) : Option Route :=
  let inp := trimStartL input
  (runRoute inp (some routeInit) inp).bind (routeFinalize inp)


/-! ## Machine lemmas for `Route::parse` -/

lemma runRoute_append (inp : List Char) (m : Option RState) (a b : List Char) :
    runRoute inp m (a ++ b) = runRoute inp (runRoute inp m a) b :=
  List.foldl_append _ _ _ _

lemma runRoute_cons (inp : List Char) (m : Option RState) (c : Char) (t : List Char) :
    runRoute inp m (c :: t) = runRoute inp (m.bind (fun s => routeStep inp s c)) t := rfl

lemma trimStartL_cons_false (c : Char) (t : List Char) (h : isWhite c = false) :
    trimStartL (c :: t) = c :: t := by
  simp [trimStartL, List.dropWhile_cons, h]

lemma runRoute_token (inp : List Char) :
    ∀ (t : List Char), (∀ c ∈ t, isWhite c = false) →
      ∀ s : RState,
        (s.st = .ParsingStartLink ∨ s.st = .ParsingOffset ∨
          s.st = .ParsingDistance ∨ s.st = .ParsingTravDir) →
        runRoute inp (some s) t = some { s with stop := s.stop + t.length } := by
  intro t
  induction t with
  | nil => intro _ s _; simp [runRoute]
  | cons c t ih =>
    intro hall s hst
    have hc : isWhite c = false := hall c (by simp)
    have hstep : routeStep inp s c = some { s with stop := s.stop + 1 } := by
      rcases hst with h | h | h | h <;> simp [routeStep, h, hc]
    rw [runRoute_cons]
    have hbind : (some s).bind (fun s => routeStep inp s c)
        = some { s with stop := s.stop + 1 } := by
      simp [hstep]
    rw [hbind]
    rw [ih (fun x hx => hall x (List.mem_cons_of_mem _ hx)) _
        (by rcases hst with h | h | h | h <;> simp [h])]
    simp only [List.length_cons]
    rw [show s.stop + 1 + t.length = s.stop + (t.length + 1) from by omega]

lemma runRoute_space (inp : List Char) :
    ∀ (w : List Char), (∀ c ∈ w, isWhite c = true) →
      ∀ s : RState, s.st = .ParsingSpace →
        runRoute inp (some s) w = some { s with start := s.start + w.length } := by
  intro w
  induction w with
  | nil => intro _ s _; simp [runRoute]
  | cons c t ih =>
    intro hall s hst
    have hc : isWhite c = true := hall c (by simp)
    have hstep : routeStep inp s c = some { s with start := s.start + 1 } := by
      simp [routeStep, hst, hc]
    rw [runRoute_cons]
    have hbind : (some s).bind (fun s => routeStep inp s c)
        = some { s with start := s.start + 1 } := by
      simp [hstep]
    rw [hbind]
    rw [ih (fun x hx => hall x (List.mem_cons_of_mem _ hx)) _ (by simp [hst])]
    simp only [List.length_cons]
    rw [show s.start + 1 + t.length = s.start + (t.length + 1) from by omega]

lemma runRoute_space_token (inp : List Char) (tk : List Char) (hne : tk ≠ [])
    (hallt : ∀ c ∈ tk, isWhite c = false) (s : RState) (hst : s.st = .ParsingSpace)
    (hnext : s.next = .ParsingOffset ∨ s.next = .ParsingDistance ∨ s.next = .ParsingTravDir) :
    runRoute inp (some s) tk
      = some { s with st := s.next, stop := s.start + (tk.length - 1) } := by
  cases tk with
  | nil => exact absurd rfl hne
  | cons c t =>
    have hc : isWhite c = false := hallt c (by simp)
    have hstep : routeStep inp s c = some { s with st := s.next, stop := s.start } := by
      simp [routeStep, hst, hc]
    rw [runRoute_cons]
    have hbind : (some s).bind (fun s => routeStep inp s c)
        = some { s with st := s.next, stop := s.start } := by
      simp [hstep]
    rw [hbind]
    rw [runRoute_token inp t (fun x hx => hallt x (List.mem_cons_of_mem _ hx)) _
        (by rcases hnext with h | h | h <;> simp [h])]
    simp

lemma sliceIncl_token (inp Pre tok suf : List Char) (p : Nat) (hp : p = Pre.length)
    (hinp : inp = Pre ++ (tok ++ suf))
    (hne : tok ≠ []) (hallt : ∀ c ∈ tok, isWhite c = false) :
    trimStartL (sliceIncl inp p (p + (tok.length - 1))) = tok := by
  subst hp
  have harith : Pre.length + (tok.length - 1) + 1 - Pre.length = tok.length := by
    cases tok with
    | nil => exact absurd rfl hne
    | cons c t => simp only [List.length_cons]; omega
  unfold sliceIncl
  rw [harith, hinp, List.drop_left, List.take_left]
  cases tok with
  | nil => exact absurd rfl hne
  | cons c t => exact trimStartL_cons_false c t (hallt c (by simp))

lemma route_state_after_four (t1 w1 t2 w2 t3 w3 t4 tail : List Char)
    (h1 : t1 ≠ []) (h1w : ∀ c ∈ t1, isWhite c = false)
    (h2 : t2 ≠ []) (h2w : ∀ c ∈ t2, isWhite c = false)
    (h3 : t3 ≠ []) (h3w : ∀ c ∈ t3, isWhite c = false)
    (h4 : t4 ≠ []) (h4w : ∀ c ∈ t4, isWhite c = false)
    (hw1 : w1 ≠ []) (hw1w : ∀ c ∈ w1, isWhite c = true)
    (hw2 : w2 ≠ []) (hw2w : ∀ c ∈ w2, isWhite c = true)
    (hw3 : w3 ≠ []) (hw3w : ∀ c ∈ w3, isWhite c = true) :
    runRoute (t1 ++ w1 ++ t2 ++ w2 ++ t3 ++ w3 ++ t4 ++ tail) (some routeInit)
        (t1 ++ w1 ++ t2 ++ w2 ++ t3 ++ w3 ++ t4)
      = some ⟨t1.length + w1.length + t2.length + w2.length + t3.length + w3.length,
              t1.length + w1.length + t2.length + w2.length + t3.length + w3.length
                + (t4.length - 1),
              .ParsingTravDir, .ParsingTravDir,
              ⟨(parseU16 t1).getD 0, (parseF64 t2).getD 0, (parseF64 t3).getD 0, 1, []⟩⟩ := by
  obtain ⟨cw1, w1', rfl⟩ : ∃ c t, w1 = c :: t := by
    cases w1 with
    | nil => exact absurd rfl hw1
    | cons c t => exact ⟨c, t, rfl⟩
  obtain ⟨cw2, w2', rfl⟩ : ∃ c t, w2 = c :: t := by
    cases w2 with
    | nil => exact absurd rfl hw2
    | cons c t => exact ⟨c, t, rfl⟩
  obtain ⟨cw3, w3', rfl⟩ : ∃ c t, w3 = c :: t := by
    cases w3 with
    | nil => exact absurd rfl hw3
    | cons c t => exact ⟨c, t, rfl⟩
  have hl1 : 1 ≤ t2.length := List.length_pos.mpr h2
  have hl3 : 1 ≤ t3.length := List.length_pos.mpr h3
  set inp := t1 ++ (cw1 :: w1') ++ t2 ++ (cw2 :: w2') ++ t3 ++ (cw3 :: w3') ++ t4 ++ tail
    with hinp
  have e1 : runRoute inp (some routeInit) t1
      = some ⟨0, t1.length, .ParsingStartLink, .ParsingStartLink, Route.empty⟩ := by
    rw [runRoute_token inp t1 h1w routeInit (Or.inl rfl)]
    simp [routeInit]
  have htake : inp.take t1.length = t1 := by
    rw [hinp]
    simp only [List.append_assoc, List.cons_append]
    exact List.take_left t1 _
  have e2 : routeStep inp ⟨0, t1.length, .ParsingStartLink, .ParsingStartLink, Route.empty⟩ cw1
      = some ⟨t1.length + 1, t1.length + 1, .ParsingSpace, .ParsingOffset,
              ⟨(parseU16 t1).getD 0, 0, 0, 1, []⟩⟩ := by
    simp [routeStep, hw1w cw1 (by simp), htake, Route.empty]
  have e3 : runRoute inp
        (some ⟨t1.length + 1, t1.length + 1, .ParsingSpace, .ParsingOffset,
               ⟨(parseU16 t1).getD 0, 0, 0, 1, []⟩⟩) w1'
      = some ⟨t1.length + 1 + w1'.length, t1.length + 1, .ParsingSpace, .ParsingOffset,
              ⟨(parseU16 t1).getD 0, 0, 0, 1, []⟩⟩ := by
    rw [runRoute_space inp w1' (fun x hx => hw1w x (List.mem_cons_of_mem _ hx)) _ rfl]
  have e4 : runRoute inp
        (some ⟨t1.length + 1 + w1'.length, t1.length + 1, .ParsingSpace, .ParsingOffset,
               ⟨(parseU16 t1).getD 0, 0, 0, 1, []⟩⟩) t2
      = some ⟨t1.length + 1 + w1'.length,
              t1.length + 1 + w1'.length + (t2.length - 1), .ParsingOffset, .ParsingOffset,
              ⟨(parseU16 t1).getD 0, 0, 0, 1, []⟩⟩ := by
    rw [runRoute_space_token inp t2 h2 h2w _ rfl (Or.inl rfl)]
  have hsl2 : trimStartL (sliceIncl inp (t1.length + 1 + w1'.length)
        (t1.length + 1 + w1'.length + (t2.length - 1))) = t2 := by
    apply sliceIncl_token inp (t1 ++ (cw1 :: w1')) t2
      ((cw2 :: w2') ++ t3 ++ (cw3 :: w3') ++ t4 ++ tail) _
      (by simp only [List.length_append, List.length_cons]; omega)
      (by rw [hinp]; simp [List.append_assoc]) h2 h2w
  have e5 : routeStep inp
        ⟨t1.length + 1 + w1'.length, t1.length + 1 + w1'.length + (t2.length - 1),
         .ParsingOffset, .ParsingOffset,
         ⟨(parseU16 t1).getD 0, 0, 0, 1, []⟩⟩ cw2
      = some ⟨t1.length + 1 + w1'.length + (t2.length - 1) + 2,
              t1.length + 1 + w1'.length + (t2.length - 1) + 2, .ParsingSpace, .ParsingDistance,
              ⟨(parseU16 t1).getD 0, (parseF64 t2).getD 0, 0, 1, []⟩⟩ := by
    simp [routeStep, hw2w cw2 (by simp), hsl2]
  have e6 : runRoute inp
        (some ⟨t1.length + 1 + w1'.length + (t2.length - 1) + 2,
               t1.length + 1 + w1'.length + (t2.length - 1) + 2, .ParsingSpace, .ParsingDistance,
               ⟨(parseU16 t1).getD 0, (parseF64 t2).getD 0, 0, 1, []⟩⟩) w2'
      = some ⟨t1.length + 1 + w1'.length + (t2.length - 1) + 2 + w2'.length,
              t1.length + 1 + w1'.length + (t2.length - 1) + 2, .ParsingSpace, .ParsingDistance,
              ⟨(parseU16 t1).getD 0, (parseF64 t2).getD 0, 0, 1, []⟩⟩ := by
    rw [runRoute_space inp w2' (fun x hx => hw2w x (List.mem_cons_of_mem _ hx)) _ rfl]
  have e7 : runRoute inp
        (some ⟨t1.length + 1 + w1'.length + (t2.length - 1) + 2 + w2'.length,
               t1.length + 1 + w1'.length + (t2.length - 1) + 2, .ParsingSpace, .ParsingDistance,
               ⟨(parseU16 t1).getD 0, (parseF64 t2).getD 0, 0, 1, []⟩⟩) t3
      = some ⟨t1.length + 1 + w1'.length + (t2.length - 1) + 2 + w2'.length,
              t1.length + 1 + w1'.length + (t2.length - 1) + 2 + w2'.length + (t3.length - 1),
              .ParsingDistance, .ParsingDistance,
              ⟨(parseU16 t1).getD 0, (parseF64 t2).getD 0, 0, 1, []⟩⟩ := by
    rw [runRoute_space_token inp t3 h3 h3w _ rfl (Or.inr (Or.inl rfl))]
  have hsl3 : trimStartL (sliceIncl inp
        (t1.length + 1 + w1'.length + (t2.length - 1) + 2 + w2'.length)
        (t1.length + 1 + w1'.length + (t2.length - 1) + 2 + w2'.length + (t3.length - 1)))
      = t3 := by
    apply sliceIncl_token inp (t1 ++ (cw1 :: w1') ++ t2 ++ (cw2 :: w2')) t3
      ((cw3 :: w3') ++ t4 ++ tail) _
      (by simp only [List.length_append, List.length_cons]; omega)
      (by rw [hinp]; simp [List.append_assoc]) h3 h3w
  have e8 : routeStep inp
        ⟨t1.length + 1 + w1'.length + (t2.length - 1) + 2 + w2'.length,
         t1.length + 1 + w1'.length + (t2.length - 1) + 2 + w2'.length + (t3.length - 1),
         .ParsingDistance, .ParsingDistance,
         ⟨(parseU16 t1).getD 0, (parseF64 t2).getD 0, 0, 1, []⟩⟩ cw3
      = some ⟨t1.length + 1 + w1'.length + (t2.length - 1) + 2 + w2'.length + (t3.length - 1)
                + 2,
              t1.length + 1 + w1'.length + (t2.length - 1) + 2 + w2'.length + (t3.length - 1),
              .ParsingSpace, .ParsingTravDir,
              ⟨(parseU16 t1).getD 0, (parseF64 t2).getD 0, (parseF64 t3).getD 0, 1, []⟩⟩ := by
    simp [routeStep, hw3w cw3 (by simp), hsl3]
  have e9 : runRoute inp
        (some ⟨t1.length + 1 + w1'.length + (t2.length - 1) + 2 + w2'.length + (t3.length - 1)
                 + 2,
               t1.length + 1 + w1'.length + (t2.length - 1) + 2 + w2'.length + (t3.length - 1),
               .ParsingSpace, .ParsingTravDir,
               ⟨(parseU16 t1).getD 0, (parseF64 t2).getD 0, (parseF64 t3).getD 0, 1, []⟩⟩) w3'
      = some ⟨t1.length + 1 + w1'.length + (t2.length - 1) + 2 + w2'.length + (t3.length - 1)
                + 2 + w3'.length,
              t1.length + 1 + w1'.length + (t2.length - 1) + 2 + w2'.length + (t3.length - 1),
              .ParsingSpace, .ParsingTravDir,
              ⟨(parseU16 t1).getD 0, (parseF64 t2).getD 0, (parseF64 t3).getD 0, 1, []⟩⟩ := by
    rw [runRoute_space inp w3' (fun x hx => hw3w x (List.mem_cons_of_mem _ hx)) _ rfl]
  have e10 : runRoute inp
        (some ⟨t1.length + 1 + w1'.length + (t2.length - 1) + 2 + w2'.length + (t3.length - 1)
                 + 2 + w3'.length,
               t1.length + 1 + w1'.length + (t2.length - 1) + 2 + w2'.length + (t3.length - 1),
               .ParsingSpace, .ParsingTravDir,
               ⟨(parseU16 t1).getD 0, (parseF64 t2).getD 0, (parseF64 t3).getD 0, 1, []⟩⟩) t4
      = some ⟨t1.length + 1 + w1'.length + (t2.length - 1) + 2 + w2'.length + (t3.length - 1)
                 + 2 + w3'.length,
              t1.length + 1 + w1'.length + (t2.length - 1) + 2 + w2'.length + (t3.length - 1)
                 + 2 + w3'.length + (t4.length - 1),
              .ParsingTravDir, .ParsingTravDir,
              ⟨(parseU16 t1).getD 0, (parseF64 t2).getD 0, (parseF64 t3).getD 0, 1, []⟩⟩ := by
    rw [runRoute_space_token inp t4 h4 h4w _ rfl (Or.inr (Or.inr rfl))]
  simp only [runRoute_append]
  rw [e1]
  rw [runRoute_cons inp (some ⟨0, t1.length, .ParsingStartLink, .ParsingStartLink,
      Route.empty⟩) cw1 w1']
  simp only [Option.some_bind]
  rw [e2, e3, e4]
  rw [runRoute_cons inp (some ⟨t1.length + 1 + w1'.length,
      t1.length + 1 + w1'.length + (t2.length - 1), .ParsingOffset, .ParsingOffset,
      ⟨(parseU16 t1).getD 0, 0, 0, 1, []⟩⟩) cw2 w2']
  simp only [Option.some_bind]
  rw [e5, e6, e7]
  rw [runRoute_cons inp (some ⟨t1.length + 1 + w1'.length + (t2.length - 1) + 2 + w2'.length,
      t1.length + 1 + w1'.length + (t2.length - 1) + 2 + w2'.length + (t3.length - 1),
      .ParsingDistance, .ParsingDistance,
      ⟨(parseU16 t1).getD 0, (parseF64 t2).getD 0, 0, 1, []⟩⟩) cw3 w3']
  simp only [Option.some_bind]
  rw [e8, e9, e10]
  simp only [List.length_cons, Option.some.injEq]
  congr 1 <;> omega

lemma runRoute_none (inp : List Char) (cs : List Char) : runRoute inp none cs = none := by
  induction cs with
  | nil => rfl
  | cons c t ih => simpa [runRoute_cons] using ih

lemma runRoute_finished (inp : List Char) :
    ∀ (cs : List Char) (s : RState), s.st = .ParsingFinished →
      runRoute inp (some s) cs = some s := by
  intro cs
  induction cs with
  | nil => intro s _; rfl
  | cons c t ih =>
    intro s hst
    rw [runRoute_cons]
    have hstep : routeStep inp s c = some s := by
      simp [routeStep, hst]
    simp only [Option.some_bind, hstep]
    exact ih s hst

lemma pushPatterns_isSome :
    ∀ (chs : List (List (List Char))),
      (∀ ch ∈ chs, TurningPattern.fromStr (joinSp ch) ≠ .panic) →
      ∀ ps0 : List TurningPattern, (pushPatterns ps0 chs).isSome = true := by
  intro chs
  induction chs with
  | nil => intro _ ps0; simp [pushPatterns]
  | cons ch rest ih =>
    intro hall ps0
    have hch := hall ch (by simp)
    simp only [pushPatterns]
    cases hfs : TurningPattern.fromStr (joinSp ch) with
    | ok t => exact ih (fun x hx => hall x (List.mem_cons_of_mem _ hx)) (ps0 ++ [t])
    | err => exact ih (fun x hx => hall x (List.mem_cons_of_mem _ hx)) ps0
    | panic => exact absurd hfs hch

lemma route_preserve (inp : List Char) :
    ∀ (cs : List Char) (s : RState),
      ((s.st = .ParsingSpace ∧ s.next = .ParsingTurnPattern) ∨
        s.st = .ParsingTurnPattern ∨ s.st = .ParsingFinished) →
      ∀ r, (runRoute inp (some s) cs).bind (routeFinalize inp) = some r →
        r.start_link = s.retval.start_link ∧ r.offset = s.retval.offset ∧
        r.distance = s.retval.distance ∧ r.trav_dir = s.retval.trav_dir := by
  intro cs
  induction cs with
  | nil =>
    intro s hst r hr
    have hr' : routeFinalize inp s = some r := hr
    rcases hst with ⟨hs1, _⟩ | hs | hs
    · simp only [routeFinalize, hs1] at hr'
      cases hr'
      exact ⟨rfl, rfl, rfl, rfl⟩
    · simp only [routeFinalize, hs] at hr'
      split at hr'
      · cases hr'
        exact ⟨rfl, rfl, rfl, rfl⟩
      · cases hr'
        exact ⟨rfl, rfl, rfl, rfl⟩
      · cases hr'
    · simp only [routeFinalize, hs] at hr'
      cases hr'
      exact ⟨rfl, rfl, rfl, rfl⟩
  | cons c t ih =>
    intro s hst r hr
    rw [runRoute_cons] at hr
    simp only [Option.some_bind] at hr
    rcases hst with ⟨hs1, hs2⟩ | hs | hs
    · by_cases hw : isWhite c = true
      · have hstep : routeStep inp s c = some { s with start := s.start + 1 } := by
          simp [routeStep, hs1, hw]
        rw [hstep] at hr
        have hres := ih { s with start := s.start + 1 } (Or.inl ⟨hs1, hs2⟩) r hr
        simpa using hres
      · have hstep : routeStep inp s c = some { s with st := s.next, stop := s.start } := by
          simp [routeStep, hs1, hw]
        rw [hstep] at hr
        have hres := ih { s with st := s.next, stop := s.start }
          (Or.inr (Or.inl hs2)) r hr
        simpa using hres
    · cases hp : pushPatterns s.retval.patterns (chunks2 (splitWs (inp.drop s.start))) with
      | none =>
        have hstep : routeStep inp s c = none := by
          simp [routeStep, hs, hp]
        rw [hstep, runRoute_none] at hr
        cases hr
      | some ps =>
        have hstep : routeStep inp s c
            = some { s with retval := { s.retval with patterns := ps },
                            st := .ParsingFinished } := by
          simp [routeStep, hs, hp]
        rw [hstep] at hr
        have hres := ih _ (Or.inr (Or.inr rfl)) r hr
        simpa using hres
    · have hstep : routeStep inp s c = some s := by
        simp [routeStep, hs]
      rw [hstep] at hr
      exact ih s (Or.inr (Or.inr hs)) r hr

lemma route_parse_unfold (input : List Char) (h : trimStartL input = input) :
    Route.parse input
      = (runRoute input (some routeInit) input).bind (routeFinalize input) := by
  simp only [Route.parse, h]

lemma trimStart_token_head (t1 rest : List Char) (h1 : t1 ≠ [])
    (h1w : ∀ c ∈ t1, isWhite c = false) : trimStartL (t1 ++ rest) = t1 ++ rest := by
  cases t1 with
  | nil => exact absurd rfl h1
  | cons c t =>
    rw [List.cons_append]
    exact trimStartL_cons_false c _ (h1w c (by simp))

lemma route_parse_four (t1 w1 t2 w2 t3 w3 t4 : List Char)
    (h1 : t1 ≠ []) (h1w : ∀ c ∈ t1, isWhite c = false)
    (h2 : t2 ≠ []) (h2w : ∀ c ∈ t2, isWhite c = false)
    (h3 : t3 ≠ []) (h3w : ∀ c ∈ t3, isWhite c = false)
    (h4 : t4 ≠ []) (h4w : ∀ c ∈ t4, isWhite c = false)
    (hw1 : w1 ≠ []) (hw1w : ∀ c ∈ w1, isWhite c = true)
    (hw2 : w2 ≠ []) (hw2w : ∀ c ∈ w2, isWhite c = true)
    (hw3 : w3 ≠ []) (hw3w : ∀ c ∈ w3, isWhite c = true) :
    Route.parse (t1 ++ w1 ++ t2 ++ w2 ++ t3 ++ w3 ++ t4)
      = some ⟨(parseU16 t1).getD 0, (parseF64 t2).getD 0, (parseF64 t3).getD 0, 1, []⟩ := by
  have hassoc : t1 ++ w1 ++ t2 ++ w2 ++ t3 ++ w3 ++ t4
      = t1 ++ (w1 ++ t2 ++ w2 ++ t3 ++ w3 ++ t4) := by
    simp [List.append_assoc]
  have htrim : trimStartL (t1 ++ w1 ++ t2 ++ w2 ++ t3 ++ w3 ++ t4)
      = t1 ++ w1 ++ t2 ++ w2 ++ t3 ++ w3 ++ t4 := by
    rw [hassoc]
    exact trimStart_token_head t1 _ h1 h1w
  rw [route_parse_unfold _ htrim]
  have hm := route_state_after_four t1 w1 t2 w2 t3 w3 t4 [] h1 h1w h2 h2w h3 h3w h4 h4w
    hw1 hw1w hw2 hw2w hw3 hw3w
  rw [List.append_nil] at hm
  rw [hm]
  simp [routeFinalize]

lemma route_parse_four_tail (t1 w1 t2 w2 t3 w3 t4 : List Char) (c : Char) (tl : List Char)
    (h1 : t1 ≠ []) (h1w : ∀ c ∈ t1, isWhite c = false)
    (h2 : t2 ≠ []) (h2w : ∀ c ∈ t2, isWhite c = false)
    (h3 : t3 ≠ []) (h3w : ∀ c ∈ t3, isWhite c = false)
    (h4 : t4 ≠ []) (h4w : ∀ c ∈ t4, isWhite c = false)
    (hw1 : w1 ≠ []) (hw1w : ∀ c ∈ w1, isWhite c = true)
    (hw2 : w2 ≠ []) (hw2w : ∀ c ∈ w2, isWhite c = true)
    (hw3 : w3 ≠ []) (hw3w : ∀ c ∈ w3, isWhite c = true)
    (hcw : isWhite c = true) :
    ∀ r, Route.parse (t1 ++ w1 ++ t2 ++ w2 ++ t3 ++ w3 ++ t4 ++ c :: tl) = some r →
      r.start_link = (parseU16 t1).getD 0 ∧ r.offset = (parseF64 t2).getD 0 ∧
      r.distance = (parseF64 t3).getD 0 ∧ r.trav_dir = (parseI32 t4).getD 0 := by
  intro r hr
  have hassoc : t1 ++ w1 ++ t2 ++ w2 ++ t3 ++ w3 ++ t4 ++ c :: tl
      = t1 ++ (w1 ++ t2 ++ w2 ++ t3 ++ w3 ++ t4 ++ c :: tl) := by
    simp [List.append_assoc]
  have htrim : trimStartL (t1 ++ w1 ++ t2 ++ w2 ++ t3 ++ w3 ++ t4 ++ c :: tl)
      = t1 ++ w1 ++ t2 ++ w2 ++ t3 ++ w3 ++ t4 ++ c :: tl := by
    rw [hassoc]
    exact trimStart_token_head t1 _ h1 h1w
  rw [route_parse_unfold _ htrim] at hr
  rw [runRoute_append (t1 ++ w1 ++ t2 ++ w2 ++ t3 ++ w3 ++ t4 ++ c :: tl) (some routeInit)
    (t1 ++ w1 ++ t2 ++ w2 ++ t3 ++ w3 ++ t4) (c :: tl)] at hr
  rw [route_state_after_four t1 w1 t2 w2 t3 w3 t4 (c :: tl) h1 h1w h2 h2w h3 h3w h4 h4w
    hw1 hw1w hw2 hw2w hw3 hw3w] at hr
  rw [runRoute_cons] at hr
  simp only [Option.some_bind] at hr
  have hsl4 : trimStartL (sliceIncl (t1 ++ (w1 ++ (t2 ++ (w2 ++ (t3 ++ (w3 ++ (t4 ++ c :: tl)))))))
        (t1.length + w1.length + t2.length + w2.length + t3.length + w3.length)
        (t1.length + w1.length + t2.length + w2.length + t3.length + w3.length
          + (t4.length - 1))) = t4 := by
    apply sliceIncl_token _ (t1 ++ w1 ++ t2 ++ w2 ++ t3 ++ w3) t4 (c :: tl) _
      (by simp only [List.length_append]; try omega)
      (by simp [List.append_assoc]) h4 h4w
  have hstep : routeStep (t1 ++ w1 ++ t2 ++ w2 ++ t3 ++ w3 ++ t4 ++ c :: tl)
      ⟨t1.length + w1.length + t2.length + w2.length + t3.length + w3.length,
       t1.length + w1.length + t2.length + w2.length + t3.length + w3.length
         + (t4.length - 1),
       .ParsingTravDir, .ParsingTravDir,
       ⟨(parseU16 t1).getD 0, (parseF64 t2).getD 0, (parseF64 t3).getD 0, 1, []⟩⟩ c
      = some ⟨t1.length + w1.length + t2.length + w2.length + t3.length + w3.length
                + (t4.length - 1) + 2,
              t1.length + w1.length + t2.length + w2.length + t3.length + w3.length
                + (t4.length - 1),
              .ParsingSpace, .ParsingTurnPattern,
              ⟨(parseU16 t1).getD 0, (parseF64 t2).getD 0, (parseF64 t3).getD 0,
               (parseI32 t4).getD 0, []⟩⟩ := by
    simp [routeStep, hcw, hsl4]
  rw [hstep] at hr
  have hres := route_preserve _ tl _ (Or.inl ⟨rfl, rfl⟩) r hr
  simpa using hres

lemma sliceIncl_single (Q : List Char) (pc : Char) (suf : List Char) (q : Nat)
    (hq : q = Q.length) : sliceIncl (Q ++ pc :: suf) q q = [pc] := by
  unfold sliceIncl
  subst hq
  rw [List.drop_left]
  simp

lemma route_parse_patterns_total (t1 w1 t2 w2 t3 w3 t4 w4 P : List Char)
    (h1 : t1 ≠ []) (h1w : ∀ c ∈ t1, isWhite c = false)
    (h2 : t2 ≠ []) (h2w : ∀ c ∈ t2, isWhite c = false)
    (h3 : t3 ≠ []) (h3w : ∀ c ∈ t3, isWhite c = false)
    (h4 : t4 ≠ []) (h4w : ∀ c ∈ t4, isWhite c = false)
    (hw1 : w1 ≠ []) (hw1w : ∀ c ∈ w1, isWhite c = true)
    (hw2 : w2 ≠ []) (hw2w : ∀ c ∈ w2, isWhite c = true)
    (hw3 : w3 ≠ []) (hw3w : ∀ c ∈ w3, isWhite c = true)
    (hw4 : w4 ≠ []) (hw4w : ∀ c ∈ w4, isWhite c = true)
    (hP : P = [] ∨ ∃ pc ptl, P = pc :: ptl ∧ isWhite pc = false)
    (hchunks : ∀ ch ∈ chunks2 (splitWs P),
      TurningPattern.fromStr (joinSp ch) ≠ PRes.panic) :
    (Route.parse (t1 ++ w1 ++ t2 ++ w2 ++ t3 ++ w3 ++ t4 ++ (w4 ++ P))).isSome = true := by
  obtain ⟨c4, w4', rfl⟩ : ∃ c t, w4 = c :: t := by
    cases w4 with
    | nil => exact absurd rfl hw4
    | cons c t => exact ⟨c, t, rfl⟩
  have hc4 : isWhite c4 = true := hw4w c4 (by simp)
  have hw4'w : ∀ c ∈ w4', isWhite c = true := fun x hx => hw4w x (List.mem_cons_of_mem _ hx)
  have hl4 : 1 ≤ t4.length := List.length_pos.mpr h4
  have htrim : trimStartL (t1 ++ w1 ++ t2 ++ w2 ++ t3 ++ w3 ++ t4 ++ ((c4 :: w4') ++ P))
      = t1 ++ w1 ++ t2 ++ w2 ++ t3 ++ w3 ++ t4 ++ ((c4 :: w4') ++ P) := by
    have hassoc : t1 ++ w1 ++ t2 ++ w2 ++ t3 ++ w3 ++ t4 ++ ((c4 :: w4') ++ P)
        = t1 ++ (w1 ++ t2 ++ w2 ++ t3 ++ w3 ++ t4 ++ ((c4 :: w4') ++ P)) := by
      simp [List.append_assoc]
    rw [hassoc]
    exact trimStart_token_head t1 _ h1 h1w
  rw [route_parse_unfold _ htrim]
  rw [runRoute_append (t1 ++ w1 ++ t2 ++ w2 ++ t3 ++ w3 ++ t4 ++ ((c4 :: w4') ++ P))
    (some routeInit) (t1 ++ w1 ++ t2 ++ w2 ++ t3 ++ w3 ++ t4) ((c4 :: w4') ++ P)]
  rw [route_state_after_four t1 w1 t2 w2 t3 w3 t4 ((c4 :: w4') ++ P) h1 h1w h2 h2w h3 h3w
    h4 h4w hw1 hw1w hw2 hw2w hw3 hw3w]
  rw [List.cons_append]
  rw [runRoute_cons]
  simp only [Option.some_bind]
  obtain ⟨td, hstep1⟩ : ∃ td : Int,
      routeStep (t1 ++ w1 ++ t2 ++ w2 ++ t3 ++ w3 ++ t4 ++ c4 :: (w4' ++ P))
        ⟨t1.length + w1.length + t2.length + w2.length + t3.length + w3.length,
         t1.length + w1.length + t2.length + w2.length + t3.length + w3.length
           + (t4.length - 1),
         .ParsingTravDir, .ParsingTravDir,
         ⟨(parseU16 t1).getD 0, (parseF64 t2).getD 0, (parseF64 t3).getD 0, 1, []⟩⟩ c4
      = some ⟨t1.length + w1.length + t2.length + w2.length + t3.length + w3.length
                + (t4.length - 1) + 2,
              t1.length + w1.length + t2.length + w2.length + t3.length + w3.length
                + (t4.length - 1),
              .ParsingSpace, .ParsingTurnPattern,
              ⟨(parseU16 t1).getD 0, (parseF64 t2).getD 0, (parseF64 t3).getD 0, td, []⟩⟩ :=
    ⟨(parseI32 (trimStartL (sliceIncl
        (t1 ++ w1 ++ t2 ++ w2 ++ t3 ++ w3 ++ t4 ++ c4 :: (w4' ++ P))
        (t1.length + w1.length + t2.length + w2.length + t3.length + w3.length)
        (t1.length + w1.length + t2.length + w2.length + t3.length + w3.length
          + (t4.length - 1))))).getD 0,
     by simp [routeStep, hc4]⟩
  rw [hstep1]
  rw [runRoute_append (t1 ++ w1 ++ t2 ++ w2 ++ t3 ++ w3 ++ t4 ++ c4 :: (w4' ++ P)) _ w4' P]
  have e2 : runRoute (t1 ++ w1 ++ t2 ++ w2 ++ t3 ++ w3 ++ t4 ++ c4 :: (w4' ++ P))
        (some ⟨t1.length + w1.length + t2.length + w2.length + t3.length + w3.length
                 + (t4.length - 1) + 2,
               t1.length + w1.length + t2.length + w2.length + t3.length + w3.length
                 + (t4.length - 1),
               .ParsingSpace, .ParsingTurnPattern,
               ⟨(parseU16 t1).getD 0, (parseF64 t2).getD 0, (parseF64 t3).getD 0, td, []⟩⟩) w4'
      = some ⟨t1.length + w1.length + t2.length + w2.length + t3.length + w3.length
                + (t4.length - 1) + 2 + w4'.length,
              t1.length + w1.length + t2.length + w2.length + t3.length + w3.length
                + (t4.length - 1),
              .ParsingSpace, .ParsingTurnPattern,
              ⟨(parseU16 t1).getD 0, (parseF64 t2).getD 0, (parseF64 t3).getD 0, td, []⟩⟩ := by
    rw [runRoute_space _ w4' hw4'w _ rfl]
  rw [e2]
  rcases hP with rfl | ⟨pc, ptl, rfl, hpc⟩
  · simp [runRoute, routeFinalize]
  · rw [runRoute_cons]
    simp only [Option.some_bind]
    have hstep3 : routeStep (t1 ++ w1 ++ t2 ++ w2 ++ t3 ++ w3 ++ t4 ++ c4 :: (w4' ++ pc :: ptl))
        ⟨t1.length + w1.length + t2.length + w2.length + t3.length + w3.length
           + (t4.length - 1) + 2 + w4'.length,
         t1.length + w1.length + t2.length + w2.length + t3.length + w3.length
           + (t4.length - 1),
         .ParsingSpace, .ParsingTurnPattern,
         ⟨(parseU16 t1).getD 0, (parseF64 t2).getD 0, (parseF64 t3).getD 0, td, []⟩⟩ pc
        = some ⟨t1.length + w1.length + t2.length + w2.length + t3.length + w3.length
                  + (t4.length - 1) + 2 + w4'.length,
                t1.length + w1.length + t2.length + w2.length + t3.length + w3.length
                  + (t4.length - 1) + 2 + w4'.length,
                .ParsingTurnPattern, .ParsingTurnPattern,
                ⟨(parseU16 t1).getD 0, (parseF64 t2).getD 0, (parseF64 t3).getD 0, td, []⟩⟩ := by
      simp [routeStep, hpc]
    rw [hstep3]
    cases ptl with
    | nil =>
      have hsl : trimStartL (sliceIncl
            (t1 ++ (w1 ++ (t2 ++ (w2 ++ (t3 ++ (w3 ++ (t4 ++ c4 :: (w4' ++ pc :: []))))))))
            (t1.length + w1.length + t2.length + w2.length + t3.length + w3.length
              + (t4.length - 1) + 2 + w4'.length)
            (t1.length + w1.length + t2.length + w2.length + t3.length + w3.length
              + (t4.length - 1) + 2 + w4'.length)) = [pc] := by
        rw [show t1 ++ (w1 ++ (t2 ++ (w2 ++ (t3 ++ (w3 ++ (t4 ++ c4 :: (w4' ++ pc :: [])))))))
            = (t1 ++ w1 ++ t2 ++ w2 ++ t3 ++ w3 ++ t4 ++ (c4 :: w4')) ++ pc :: []
          from by simp [List.append_assoc]]
        rw [sliceIncl_single (t1 ++ w1 ++ t2 ++ w2 ++ t3 ++ w3 ++ t4 ++ (c4 :: w4')) pc []
          _ (by simp only [List.length_append, List.length_cons]; omega)]
        exact trimStartL_cons_false pc [] hpc
      have hfs : TurningPattern.fromStr (trimStartL (sliceIncl
            (t1 ++ (w1 ++ (t2 ++ (w2 ++ (t3 ++ (w3 ++ (t4 ++ c4 :: (w4' ++ pc :: []))))))))
            (t1.length + w1.length + t2.length + w2.length + t3.length + w3.length
              + (t4.length - 1) + 2 + w4'.length)
            (t1.length + w1.length + t2.length + w2.length + t3.length + w3.length
              + (t4.length - 1) + 2 + w4'.length))) = PRes.err := by
        rw [hsl]
        simp [TurningPattern.fromStr, splitWs, splitWsAux, hpc]
      simp only [runRoute, List.foldl_nil, Option.some_bind]
      simp [routeFinalize, hfs]
    | cons pc2 ptl2 =>
      rw [runRoute_cons]
      simp only [Option.some_bind]
      have hdrop : (t1 ++ (w1 ++ (t2 ++ (w2 ++ (t3 ++ (w3 ++ (t4
            ++ c4 :: (w4' ++ pc :: pc2 :: ptl2)))))))).drop
          (t1.length + w1.length + t2.length + w2.length + t3.length + w3.length
            + (t4.length - 1) + 2 + w4'.length) = pc :: pc2 :: ptl2 := by
        rw [show t1 ++ (w1 ++ (t2 ++ (w2 ++ (t3 ++ (w3 ++ (t4 ++ c4 :: (w4' ++ pc :: pc2 :: ptl2)))))))
            = (t1 ++ w1 ++ t2 ++ w2 ++ t3 ++ w3 ++ t4 ++ (c4 :: w4')) ++ pc :: pc2 :: ptl2
          from by simp [List.append_assoc]]
        rw [show t1.length + w1.length + t2.length + w2.length + t3.length + w3.length
              + (t4.length - 1) + 2 + w4'.length
            = (t1 ++ w1 ++ t2 ++ w2 ++ t3 ++ w3 ++ t4 ++ (c4 :: w4')).length
          from by simp only [List.length_append, List.length_cons]; omega]
        exact List.drop_left _ _
      obtain ⟨ps, hps⟩ : ∃ ps, pushPatterns ([] : List TurningPattern)
          (chunks2 (splitWs (pc :: pc2 :: ptl2))) = some ps :=
        Option.isSome_iff_exists.mp
          (pushPatterns_isSome (chunks2 (splitWs (pc :: pc2 :: ptl2))) hchunks [])
      have hstep4 : routeStep
          (t1 ++ w1 ++ t2 ++ w2 ++ t3 ++ w3 ++ t4 ++ c4 :: (w4' ++ pc :: pc2 :: ptl2))
          ⟨t1.length + w1.length + t2.length + w2.length + t3.length + w3.length
             + (t4.length - 1) + 2 + w4'.length,
           t1.length + w1.length + t2.length + w2.length + t3.length + w3.length
             + (t4.length - 1) + 2 + w4'.length,
           .ParsingTurnPattern, .ParsingTurnPattern,
           ⟨(parseU16 t1).getD 0, (parseF64 t2).getD 0, (parseF64 t3).getD 0, td, []⟩⟩ pc2
          = some ⟨t1.length + w1.length + t2.length + w2.length + t3.length + w3.length
                    + (t4.length - 1) + 2 + w4'.length,
                  t1.length + w1.length + t2.length + w2.length + t3.length + w3.length
                    + (t4.length - 1) + 2 + w4'.length,
                  .ParsingFinished, .ParsingTurnPattern,
                  ⟨(parseU16 t1).getD 0, (parseF64 t2).getD 0, (parseF64 t3).getD 0, td, ps⟩⟩ := by
        simp [routeStep, hdrop, hps]
      rw [hstep4]
      rw [runRoute_finished _ ptl2 _ rfl]
      simp [routeFinalize]

/-- C4 (corrected): for a route string made of the four mandatory fields
`<start_link> <offset> <distance> <trav_dir>`, `Route::parse` assigns the
parsed (default `0` on malformed) values of the first three fields, but the
fourth field only reaches `trav_dir` when something (whitespace) follows it:
when the input ends right after the fourth token the post-loop `match` has
no `ParsingTravDir` arm, so `trav_dir` keeps its initial value `1`.  The
claim's unconditional "sets `trav_dir` to the parsed value" is wrong. -/
theorem route_parse_leading_fields (t1 w1 t2 w2 t3 w3 t4 tail : List Char)
    (h1 : t1 ≠ []) (h1w : ∀ c ∈ t1, isWhite c = false)
    (h2 : t2 ≠ []) (h2w : ∀ c ∈ t2, isWhite c = false)
    (h3 : t3 ≠ []) (h3w : ∀ c ∈ t3, isWhite c = false)
    (h4 : t4 ≠ []) (h4w : ∀ c ∈ t4, isWhite c = false)
    (hw1 : w1 ≠ []) (hw1w : ∀ c ∈ w1, isWhite c = true)
    (hw2 : w2 ≠ []) (hw2w : ∀ c ∈ w2, isWhite c = true)
    (hw3 : w3 ≠ []) (hw3w : ∀ c ∈ w3, isWhite c = true)
    (htail : tail = [] ∨ ∃ c tl, tail = c :: tl ∧ isWhite c = true) :
    ∀ r, Route.parse (t1 ++ w1 ++ t2 ++ w2 ++ t3 ++ w3 ++ t4 ++ tail) = some r →
      r.start_link = (parseU16 t1).getD 0 ∧ r.offset = (parseF64 t2).getD 0 ∧
      r.distance = (parseF64 t3).getD 0 ∧
      r.trav_dir = (if tail = [] then 1 else (parseI32 t4).getD 0) := by
  intro r hr
  rcases htail with rfl | ⟨c, tl, rfl, hcw⟩
  · rw [List.append_nil] at hr
    rw [route_parse_four t1 w1 t2 w2 t3 w3 t4 h1 h1w h2 h2w h3 h3w h4 h4w
      hw1 hw1w hw2 hw2w hw3 hw3w] at hr
    injection hr with hr
    subst hr
    simp
  · have h := route_parse_four_tail t1 w1 t2 w2 t3 w3 t4 c tl h1 h1w h2 h2w h3 h3w h4 h4w
      hw1 hw1w hw2 hw2w hw3 hw3w hcw r hr
    refine ⟨h.1, h.2.1, h.2.2.1, ?_⟩
    rw [h.2.2.2]
    simp

/-- C4 counterexample: on `"1 2 3 -1"` the fourth field parses to `-1`,
yet the returned route has `trav_dir = 1` (the default), because the input
ends immediately after the fourth field. -/
theorem route_parse_travdir_not_assigned :
    (Route.parse ("1 2 3 -1".toList)).map Route.trav_dir = some 1 ∧
    parseI32 ("-1".toList) = some (-1) ∧ (1 : Int) ≠ -1 := by
  refine ⟨?_, ?_, ?_⟩ <;> decide

/-- C4 witness: the corrected theorem applied to the concrete input
`"1 2 3 -1"` (so with an empty tail), showing `trav_dir = 1`. -/
theorem route_parse_leading_fields_witness :
    ∃ r, Route.parse ("1 2 3 -1".toList) = some r ∧ r.trav_dir = 1 := by
  have hs : (Route.parse ("1 2 3 -1".toList)).isSome = true := by decide
  cases hP : Route.parse ("1 2 3 -1".toList) with
  | none => rw [hP] at hs; cases hs
  | some r =>
    refine ⟨r, rfl, ?_⟩
    have heq : "1 2 3 -1".toList
        = "1".toList ++ " ".toList ++ "2".toList ++ " ".toList ++ "3".toList ++ " ".toList
          ++ "-1".toList ++ ([] : List Char) := by decide
    rw [heq] at hP
    have h := route_parse_leading_fields "1".toList " ".toList "2".toList " ".toList
      "3".toList " ".toList "-1".toList [] (by decide) (by decide) (by decide) (by decide)
      (by decide) (by decide) (by decide) (by decide) (by decide) (by decide) (by decide)
      (by decide) (by decide) (by decide) (Or.inl rfl) r hP
    rw [h.2.2.2]
    simp

/-- C1 (corrected): `Route::parse` is total on inputs whose four leading
fields are well-shaped and whose turn-pattern region has only recognised
`<turn> <multiplicity>` chunks: unrecognised pairs among the 2-chunks make
the Rust code panic (both `unwrap`s in the two-token branch), so totality
needs the no-panic side condition; a trailing single token is indeed
ignored (it yields `Err`, which is dropped). -/
theorem route_parse_total_on_recognised (t1 w1 t2 w2 t3 w3 t4 tail : List Char)
    (h1 : t1 ≠ []) (h1w : ∀ c ∈ t1, isWhite c = false)
    (h2 : t2 ≠ []) (h2w : ∀ c ∈ t2, isWhite c = false)
    (h3 : t3 ≠ []) (h3w : ∀ c ∈ t3, isWhite c = false)
    (h4 : t4 ≠ []) (h4w : ∀ c ∈ t4, isWhite c = false)
    (hw1 : w1 ≠ []) (hw1w : ∀ c ∈ w1, isWhite c = true)
    (hw2 : w2 ≠ []) (hw2w : ∀ c ∈ w2, isWhite c = true)
    (hw3 : w3 ≠ []) (hw3w : ∀ c ∈ w3, isWhite c = true)
    (htail : tail = [] ∨ ∃ w4 P, tail = w4 ++ P ∧ w4 ≠ [] ∧ (∀ c ∈ w4, isWhite c = true) ∧
      (P = [] ∨ ∃ pc ptl, P = pc :: ptl ∧ isWhite pc = false) ∧
      ∀ ch ∈ chunks2 (splitWs P), TurningPattern.fromStr (joinSp ch) ≠ PRes.panic) :
    (Route.parse (t1 ++ w1 ++ t2 ++ w2 ++ t3 ++ w3 ++ t4 ++ tail)).isSome = true := by
  rcases htail with rfl | ⟨w4, P, rfl, hw4, hw4w, hP, hchunks⟩
  · rw [List.append_nil, route_parse_four t1 w1 t2 w2 t3 w3 t4 h1 h1w h2 h2w h3 h3w h4 h4w
      hw1 hw1w hw2 hw2w hw3 hw3w]
    rfl
  · exact route_parse_patterns_total t1 w1 t2 w2 t3 w3 t4 w4 P h1 h1w h2 h2w h3 h3w h4 h4w
      hw1 hw1w hw2 hw2w hw3 hw3w hw4 hw4w hP hchunks

/-- C1 counterexample: `"1 2 3 4 Nope:X Count:1"` makes `Route::parse`
panic (modelled as `none`): the pair `Nope:X Count:1` is a 2-chunk whose
turn half is unrecognised, and the code unwraps it instead of dropping it. -/
theorem route_parse_unrecognised_pair_panics :
    Route.parse ("1 2 3 4 Nope:X Count:1".toList) = none ∧
    TurningPattern.fromStr ("Nope:X Count:1".toList) = PRes.panic := by
  constructor <;> decide

/-- C1 witness: the corrected totality theorem applied to the concrete
input `"1 2 3 1 Relative:Left Count:2"`, whose single chunk is recognised. -/
theorem route_parse_total_on_recognised_witness :
    (Route.parse ("1 2 3 1 Relative:Left Count:2".toList)).isSome = true := by
  have heq : "1 2 3 1 Relative:Left Count:2".toList
      = "1".toList ++ " ".toList ++ "2".toList ++ " ".toList ++ "3".toList ++ " ".toList
        ++ "1".toList ++ (" ".toList ++ "Relative:Left Count:2".toList) := by decide
  rw [heq]
  exact route_parse_total_on_recognised "1".toList " ".toList "2".toList " ".toList
    "3".toList " ".toList "1".toList (" ".toList ++ "Relative:Left Count:2".toList)
    (by decide) (by decide) (by decide) (by decide) (by decide) (by decide) (by decide)
    (by decide) (by decide) (by decide) (by decide) (by decide) (by decide) (by decide)
    (Or.inr ⟨" ".toList, "Relative:Left Count:2".toList, rfl, by decide, by decide,
      Or.inr ⟨'R', "elative:Left Count:2".toList, by decide, by decide⟩, by decide⟩)

/-! ## The network: links, tiles, segments, junctions -/

/-- A `Link` of `math.rs`: identifier, member tiles and the optional
junction ids at its two ends.  Ids are the numeric values of the Rust
`u16`/`u32` fields. -/
structure Link where
  id : Nat
  tiles : List Nat
  origin : Option Nat
  destination : Option Nat
deriving DecidableEq, Repr

/-- A `Tile`: its id and the link it belongs to (the `segments` vector of
the Rust struct is unused by the functions modelled here, the segments
being looked up in the network-wide list). -/
structure Tile where
  id : Nat
  link : Nat
deriving DecidableEq, Repr

/-- A `Segment`, reduced to the fields the route evaluator reads: the tile
it belongs to and its heading `h` (an `f64`, modelled as `ℚ`). -/
structure Segment where
  tile : Nat
  h : ℚ
deriving DecidableEq, Repr

/-- The `Network` aggregate (the routing table and spanning tree of the
Rust struct are outputs, not inputs, of the functions modelled here). -/
structure Network where
  links : List Link
  junctions : List Junction
  tiles : List Tile
  segments : List Segment
deriving DecidableEq, Repr

/-- `Network::get_link`: `&self.links[(id-1) as usize]` on a `u16` id; the
subtraction wraps (`id = 0` gives index `65535`) and an out-of-range index
is a Rust panic, modelled as `none`. -/
def Network.get_link (net : Network) (id : Nat) : Option Link :=
  net.links.get? ((id + 65535) % 65536)

/-- `Network::get_junc`: `&self.junctions[(id-1) as usize]` on a `u32` id;
wrapping subtraction, out-of-range panic modelled as `none`. -/
def Network.get_junc (net : Network) (id : Nat) : Option Junction :=
  net.junctions.get? ((id + 4294967295) % 4294967296)

/-- The tile loop of `first_segment_for_link`: for each tile of the link,
return the first segment of that tile, falling through to later tiles when
a tile has no segment. -/
def firstSegAux (segments : List Segment) (linkId : Nat) : List Tile → Option Segment
  | [] => none
  | t :: rest =>
    if t.link = linkId then
      match segments.find? (fun s => s.tile == t.id) with
      | some s => some s
      | none => firstSegAux segments linkId rest
    else firstSegAux segments linkId rest

/-- `Network::first_segment_for_link`. -/
def Network.first_segment_for_link (net : Network) (link : Link) : Option Segment :=
  firstSegAux net.segments link.id net.tiles

/-- `Network::last_segment_for_link`: the same double loop but keeping the
last match instead of returning the first. -/
def Network.last_segment_for_link (net : Network) (link : Link) : Option Segment :=
  net.tiles.foldl
    (fun retval t =>
      if t.link = link.id then
        net.segments.foldl (fun r s => if s.tile = t.id then some s else r) retval
      else retval)
    none

/-! ## `Network::evaluate_route` -/

/-- The `num_turns` initialisation of `evaluate_route`: `u32::MAX` unless
the pattern carries an explicit `Count`. -/
def numTurnsOf : TurnMultiplicity → Nat
  | .Count n => n
  | .Always => 4294967295

/-- Number of successful iterations the inner `loop` of `evaluate_route`
performs before `turn_num == num_turns` stops it.  `turn_num` starts at 0
and the comparison happens after the increment, so `num_turns = 0` stops
only when the `u32` counter wraps around, after `2^32` iterations. -/
def patternBudget (n : Nat) : Nat := if n = 0 then 4294967296 else n

/-- The `incoming_heading` computed at the top of the inner loop of
`evaluate_route`: reciprocal of the first segment's heading when travelling
against the link, the last segment's heading otherwise, `0.0` when the
link has no segment. -/
def incomingHeading (net : Network) (link : Link) (td : Int) : ℚ :=
  if td = -1 then
    match net.first_segment_for_link link with
    | some s => find_reciprocal_heading s.h
    | none => 0
  else
    match net.last_segment_for_link link with
    | some s => s.h
    | none => 0

/-- The `match &route.patterns[i].turn` of `evaluate_route`, selecting the
exit index; the outer `none` is a panic inside the chosen search
(`find_exit_from_turn_direction` indexing, `find_relative_exit` dividing by
zero), the inner `none` is the `usize::MAX` sentinel. -/
def exitSearch (up : Junction) (entry : Nat) : Turn → Option (Option Nat)
  | .Relative dir => up.find_exit_from_turn_direction entry dir
  | .Compass dir => some (up.find_exit_from_compass dir)
  | .Exit n =>
    match up.find_relative_exit entry n with
    | none => none
    | some i => some (some i)
  | .Heading deg => some (up.find_exit_from_heading ((deg : Nat) : ℚ))

/-- One turning pattern's inner `loop` of `evaluate_route`, counted down by
the remaining iteration budget.  Returns the accumulated hop list plus the
current link and travel direction, `none` modelling a panic or divergence:
an absent upcoming junction makes the Rust `loop` spin forever (its body is
one big `if let Some`), and `get_junc`/`links[exit_index]`/`get_link` can
panic. -/
def innerLoop (net : Network) (turn : Turn) :
    Nat → Link → Int → List (Nat × Nat) → Option (List (Nat × Nat) × Link × Int)
  | 0, link, td, v => some (v, link, td)
  | b + 1, link, td, v =>
    match (if td = -1 then link.origin else link.destination) with
    | none => none
    | some jid =>
      match net.get_junc jid with
      | none => none
      | some up =>
        match exitSearch up (up.find_entry (incomingHeading net link td)) turn with
        | none => none
        | some none => some (v, link, td)
        | some (some ei) =>
          match up.links.get? ei with
          | none => none
          | some exit =>
            match net.get_link exit.link_id with
            | none => none
            | some link' =>
              let td1 : Int := match link'.origin with
                | some o => if o = up.id then 1 else td
                | none => td
              let td2 : Int := match link'.destination with
                | some d => if d = up.id then -1 else td1
                | none => td1
              innerLoop net turn b link' td2 (v ++ [(up.id, ei)])

/-- The pattern loop of `evaluate_route`. -/
def evalPatterns (net : Network) :
    List TurningPattern → Link → Int → List (Nat × Nat) → Option (List (Nat × Nat) × Link × Int)
  | [], link, td, v => some (v, link, td)
  | p :: rest, link, td, v =>
    match innerLoop net p.turn (patternBudget (numTurnsOf p.count)) link td v with
    | none => none
    | some (v', link', td') => evalPatterns net rest link' td' v'

/-- `Network::evaluate_route`: fetch the start link (a panic when the id is
out of range) and run the patterns.  The `LogicalCoord` position is carried
by the Rust code but never influences the returned hop list, so it is
omitted. -/
def Network.evaluate_route (net : Network) (route : Route) : Option (List (Nat × Nat)) :=
  match net.get_link route.start_link with
  | none => none
  | some link =>
    match evalPatterns net route.patterns link route.trav_dir [] with
    | none => none
    | some (v, _, _) => some v

/-- A concrete three-junction network: link 1 joins junction 1 to
junction 2, link 2 joins junction 2 (whose single exit has heading 90) to
junction 3, which has no exits. -/
def exNet : Network :=
  ⟨[⟨1, [], some 1, some 2⟩, ⟨2, [], some 2, some 3⟩],
   [⟨1, [⟨1, 90⟩]⟩, ⟨2, [⟨2, 90⟩]⟩, ⟨3, []⟩],
   [], []⟩

/-- Each inner-loop iteration pushes at most one hop, and each pushed hop
names a junction fetched from the network together with an in-range exit
index (the very next `links[exit_index]` access proves the range). -/
lemma innerLoop_spec (net : Network) (turn : Turn) :
    ∀ (b : Nat) (link : Link) (td : Int) (v : List (Nat × Nat)) res,
      innerLoop net turn b link td v = some res →
      res.1.length ≤ v.length + b ∧
      ∀ p ∈ res.1, p ∈ v ∨
        ∃ junc ∈ net.junctions, junc.id = p.1 ∧ p.2 < junc.links.length := by
  intro b
  induction b with
  | zero =>
    intro link td v res h
    simp only [innerLoop] at h
    injection h with h
    subst h
    refine ⟨?_, fun p hp => Or.inl hp⟩
    show v.length ≤ v.length + 0
    omega
  | succ b ih =>
    intro link td v res h
    simp only [innerLoop] at h
    cases hJ : (if td = -1 then link.origin else link.destination) with
    | none => simp [hJ] at h
    | some jid =>
      cases hU : net.get_junc jid with
      | none => simp [hJ, hU] at h
      | some up =>
        cases hE : exitSearch up (up.find_entry (incomingHeading net link td)) turn with
        | none => simp [hJ, hU, hE] at h
        | some oei =>
          cases oei with
          | none =>
            simp only [hJ, hU, hE] at h
            injection h with h
            subst h
            refine ⟨?_, fun p hp => Or.inl hp⟩
            show v.length ≤ v.length + (b + 1)
            omega
          | some ei =>
            cases hX : up.links.get? ei with
            | none =>
              simp only [hJ, hU, hE, hX] at h
              exact Option.noConfusion h
            | some exit =>
              cases hL : net.get_link exit.link_id with
              | none =>
                simp only [hJ, hU, hE, hX, hL] at h
                exact Option.noConfusion h
              | some link' =>
                simp only [hJ, hU, hE, hX, hL] at h
                have hspec := ih link' _ _ res h
                constructor
                · have hlen := hspec.1
                  simp only [List.length_append, List.length_cons, List.length_nil] at hlen
                  omega
                · intro p hp
                  rcases hspec.2 p hp with hv | hg
                  · rcases List.mem_append.mp hv with h1 | h2
                    · exact Or.inl h1
                    · have hpe : p = (up.id, ei) := by simpa using h2
                      subst hpe
                      refine Or.inr ?_
                      show ∃ junc ∈ net.junctions, junc.id = up.id ∧ ei < junc.links.length
                      refine ⟨up, ?_, rfl, ?_⟩
                      · unfold Network.get_junc at hU
                        exact List.get?_mem hU
                      · by_contra hlt
                        push_neg at hlt
                        have hnone : up.links.get? ei = none := List.get?_eq_none.mpr hlt
                        rw [hnone] at hX
                        exact Option.noConfusion hX
                  · exact Or.inr hg

/-- The pattern loop only adds hops of the shape established by
`innerLoop_spec`. -/
lemma evalPatterns_spec (net : Network) :
    ∀ (ps : List TurningPattern) (link : Link) (td : Int) (v : List (Nat × Nat)) res,
      evalPatterns net ps link td v = some res →
      ∀ p ∈ res.1, p ∈ v ∨
        ∃ junc ∈ net.junctions, junc.id = p.1 ∧ p.2 < junc.links.length := by
  intro ps
  induction ps with
  | nil =>
    intro link td v res h p hp
    simp only [evalPatterns] at h
    injection h with h
    subst h
    exact Or.inl hp
  | cons q rest ih =>
    intro link td v res h p hp
    simp only [evalPatterns] at h
    cases hI : innerLoop net q.turn (patternBudget (numTurnsOf q.count)) link td v with
    | none => simp only [hI] at h; exact Option.noConfusion h
    | some trip =>
      obtain ⟨v', link', td'⟩ := trip
      simp only [hI] at h
      rcases ih link' td' v' res h p hp with hv' | hg
      · rcases (innerLoop_spec net q.turn _ link td v (v', link', td') hI).2 p hv' with hv | hg2
        · exact Or.inl hv
        · exact Or.inr hg2
      · exact Or.inr hg

/-- C3 (corrected): for a pattern with multiplicity `Count n` and `n ≥ 1`
the inner loop of `evaluate_route` performs at most `n` successful
iterations, emitting at most `n` hops.  The claim's "`Count(0)` contributes
no hops" is wrong: `turn_num == num_turns` is checked only after the
increment, so `num_turns = 0` is never reached until the `u32` counter
wraps, and a `Count 0` pattern hops until an exit search fails (see the
counterexample). -/
theorem count_pattern_hop_bound (net : Network) (turn : Turn) (n : Nat) (hn : 1 ≤ n)
    (link : Link) (td : Int) (v : List (Nat × Nat))
    (res : List (Nat × Nat) × Link × Int)
    (h : innerLoop net turn (patternBudget (numTurnsOf (TurnMultiplicity.Count n))) link td v
      = some res) :
    res.1.length ≤ v.length + n := by
  have hne : n ≠ 0 := by omega
  have hb : patternBudget (numTurnsOf (TurnMultiplicity.Count n)) = n := by
    simp [patternBudget, numTurnsOf, hne]
  rw [hb] at h
  exact (innerLoop_spec net turn n link td v res h).1

/-- C3 counterexample: on the concrete network a route whose only pattern
has multiplicity `Count 0` still emits a hop (junction 2, exit 0), instead
of contributing no hops. -/
theorem count_zero_emits_hops :
    Network.evaluate_route exNet ⟨1, 0, 0, 1, [⟨.Heading 90, .Count 0⟩]⟩ = some [(2, 0)] ∧
    ([((2 : Nat), (0 : Nat))] : List (Nat × Nat)) ≠ [] := by
  constructor
  · decide
  · decide

/-- C3 witness: the corrected bound applied to a `Count 1` pattern on the
concrete network: exactly one hop, and `1 ≤ 0 + 1`. -/
theorem count_pattern_hop_bound_witness :
    innerLoop exNet (Turn.Heading 90) (patternBudget (numTurnsOf (TurnMultiplicity.Count 1)))
      ⟨1, [], some 1, some 2⟩ 1 [] = some ([(2, 0)], ⟨2, [], some 2, some 3⟩, 1) ∧
    ([((2 : Nat), (0 : Nat))] : List (Nat × Nat)).length ≤ ([] : List (Nat × Nat)).length + 1 :=
  ⟨by decide,
   count_pattern_hop_bound exNet (Turn.Heading 90) 1 (by decide) ⟨1, [], some 1, some 2⟩ 1 []
     ([(2, 0)], ⟨2, [], some 2, some 3⟩, 1) (by decide)⟩

/-- C10 (confirmed): whenever `evaluate_route` returns a hop list, every
emitted pair names a junction of the network and an exit index strictly
below that junction's number of exits; in particular the `usize::MAX`
sentinel is never emitted as an exit index. -/
theorem evaluate_route_hops_valid (net : Network) (route : Route) (hops : List (Nat × Nat))
    (h : net.evaluate_route route = some hops) :
    ∀ p ∈ hops, ∃ junc ∈ net.junctions, junc.id = p.1 ∧ p.2 < junc.links.length := by
  intro p hp
  simp only [Network.evaluate_route] at h
  cases hL : net.get_link route.start_link with
  | none => simp only [hL] at h; exact Option.noConfusion h
  | some link =>
    simp only [hL] at h
    cases hE : evalPatterns net route.patterns link route.trav_dir [] with
    | none => simp only [hE] at h; exact Option.noConfusion h
    | some trip =>
      obtain ⟨v, l', t'⟩ := trip
      simp only [hE] at h
      injection h with h
      subst h
      rcases evalPatterns_spec net route.patterns link route.trav_dir [] (v, l', t') hE p hp
        with hv | hg
      · exact absurd hv (List.not_mem_nil p)
      · exact hg

/-- C10 witness: on the concrete network the single emitted hop `(2, 0)`
names junction 2, whose exit count is 1. -/
theorem evaluate_route_hops_valid_witness :
    ∃ junc ∈ exNet.junctions, junc.id = ((2 : Nat), (0 : Nat)).1 ∧
      ((2 : Nat), (0 : Nat)).2 < junc.links.length :=
  evaluate_route_hops_valid exNet ⟨1, 0, 0, 1, [⟨.Heading 90, .Count 1⟩]⟩ [(2, 0)]
    (by decide) (2, 0) (by decide)

/-! ## `Network::build_routes` (routing-table synthesis) -/

/-- A routing-table entry `Hop { junction, dest_junc, exit }`. -/
structure Hop where
  junction : Nat
  dest_junc : Nat
  exit : Nat
deriving DecidableEq, Repr

/-- The search loop of `Network::find_exit`: the first exit of `fromJ`
whose link joins `fromJ` and `toJ` in either orientation.  `get_link` and
`get_junc` panics are the outer `none`; the Rust `&&`s short-circuit, so
the destination junction is fetched only when the origin's id matched one
side.  Exhaustion returns the `usize::MAX` sentinel, the inner `none`. -/
def findExitAux (net : Network) (fromJ toJ : Junction) : List Exit → Nat → Option (Option Nat)
  | [], _ => some none
  | e :: rest, i =>
    match net.get_link e.link_id with
    | none => none
    | some link =>
      match link.origin, link.destination with
      | some o, some d =>
        match net.get_junc o with
        | none => none
        | some oj =>
          if oj.id = fromJ.id then
            match net.get_junc d with
            | none => none
            | some dj =>
              if dj.id = toJ.id then some (some i)
              else if oj.id = toJ.id then
                if dj.id = fromJ.id then some (some i)
                else findExitAux net fromJ toJ rest (i + 1)
              else findExitAux net fromJ toJ rest (i + 1)
          else if oj.id = toJ.id then
            match net.get_junc d with
            | none => none
            | some dj =>
              if dj.id = fromJ.id then some (some i)
              else findExitAux net fromJ toJ rest (i + 1)
          else findExitAux net fromJ toJ rest (i + 1)
      | _, _ => findExitAux net fromJ toJ rest (i + 1)

/-- `Network::find_exit`. -/
def Network.find_exit (net : Network) (fromJ toJ : Junction) : Option (Option Nat) :=
  findExitAux net fromJ toJ fromJ.links 0

/-- The `j in i+2..path.len()` loop of the `build` closure: a far hop is
inserted for each later junction, but only when the junction ids differ
and the chosen exit's heading is not 270. -/
def farHopsFor (srcId : Nat) (exitH : Nat) (dests : List Junction) : List Hop :=
  dests.filterMap
    (fun d => if srcId ≠ d.id ∧ exitH ≠ 270 then some ⟨srcId, d.id, exitH⟩ else none)

/-- The `i in 0..path.len()` loop of the `build` closure on one
root-to-leaf chain: for each consecutive pair find the connecting exit;
when it exists, insert the immediate hop unconditionally, then the guarded
far hops; when the sentinel comes back, insert nothing for this `i` (just
a warning) and continue.  `none` is a panic inside `find_exit` or the
`links[exit_index]` access. -/
def pathHops (net : Network) : List Junction → Option (List Hop)
  | [] => some []
  | [_] => some []
  | src :: next :: rest =>
    match net.find_exit src next with
    | none => none
    | some none => pathHops net (next :: rest)
    | some (some ei) =>
      match src.links.get? ei with
      | none => none
      | some exit =>
        match pathHops net (next :: rest) with
        | none => none
        | some hs =>
          some (⟨src.id, next.id, exit.exit⟩ :: (farHopsFor src.id exit.exit rest ++ hs))

/-- `Network::build_routes`: the `build` closure runs at every leaf of the
spanning tree on the chain from the root to that leaf (the parent-walk
reversed); the routing table collects the hops of every such chain, here
taken as the input list. -/
def Network.build_routes (net : Network) (paths : List (List Junction)) : Option (List Hop) :=
  match paths with
  | [] => some []
  | p :: rest =>
    match pathHops net p, Network.build_routes net rest with
    | some hs, some more => some (hs ++ more)
    | _, _ => none

/-- C2 (corrected): during routing-table synthesis the `exit != 270` guard
covers only the far inserts (`j ≥ i+2` on the path); the immediate
next-hop record `Hop(path[i], path[i+1], exit)` is inserted with no guard,
so a hop whose exit heading is 270 can enter the table, and any such hop
joins two consecutive junctions of the path.  The claim's "no Hop whose
exit_heading equals 270 ever enters the routing table" is wrong (see the
counterexample). -/
theorem path_hops_270_only_near (net : Network) :
    ∀ (path : List Junction) (hops : List Hop),
      pathHops net path = some hops →
      ∀ hp ∈ hops, hp.exit = 270 →
        ∃ k s n srest, path.drop k = s :: n :: srest ∧
          hp.junction = s.id ∧ hp.dest_junc = n.id := by
  intro path
  induction path with
  | nil =>
    intro hops h hp hmem _
    simp only [pathHops] at h
    injection h with h
    subst h
    exact absurd hmem (List.not_mem_nil hp)
  | cons src t ih =>
    intro hops h hp hmem h270
    cases t with
    | nil =>
      simp only [pathHops] at h
      injection h with h
      subst h
      exact absurd hmem (List.not_mem_nil hp)
    | cons next rest =>
      simp only [pathHops] at h
      cases hF : net.find_exit src next with
      | none => simp only [hF] at h; exact Option.noConfusion h
      | some oei =>
        cases oei with
        | none =>
          simp only [hF] at h
          obtain ⟨k, s, n, srest, hdrop, h1, h2⟩ := ih hops h hp hmem h270
          exact ⟨k + 1, s, n, srest, by rw [List.drop_succ_cons]; exact hdrop, h1, h2⟩
        | some ei =>
          cases hX : src.links.get? ei with
          | none => simp only [hF, hX] at h; exact Option.noConfusion h
          | some exit =>
            cases hR : pathHops net (next :: rest) with
            | none => simp only [hF, hX, hR] at h; exact Option.noConfusion h
            | some hs =>
              simp only [hF, hX, hR] at h
              injection h with h
              subst h
              rcases List.mem_cons.mp hmem with hhp | hmem2
              · subst hhp
                exact ⟨0, src, next, rest, rfl, rfl, rfl⟩
              · rcases List.mem_append.mp hmem2 with hfar | hrest
                · exfalso
                  simp only [farHopsFor, List.mem_filterMap] at hfar
                  obtain ⟨d, hd, hif⟩ := hfar
                  split at hif
                  · rename_i hc
                    injection hif with hif
                    subst hif
                    exact hc.2 h270
                  · exact Option.noConfusion hif
                · obtain ⟨k, s, n, srest, hdrop, h1, h2⟩ := ih hs hR hp hrest h270
                  exact ⟨k + 1, s, n, srest, by rw [List.drop_succ_cons]; exact hdrop, h1, h2⟩

/-- A two-junction network whose only link leaves junction 1 through an
exit with heading 270. -/
def exNet2 : Network :=
  ⟨[⟨1, [], some 1, some 2⟩], [⟨1, [⟨1, 270⟩]⟩, ⟨2, []⟩], [], []⟩

/-- C2 counterexample: on the root-to-leaf chain 1 → 2 of `exNet2` the
synthesis inserts `Hop(1, 2, 270)`: a 270-headed hop does enter the
routing table, through the unguarded immediate insert. -/
theorem build_routes_emits_270 :
    Network.build_routes exNet2 [[⟨1, [⟨1, 270⟩]⟩, ⟨2, []⟩]] = some [⟨1, 2, 270⟩] ∧
    (⟨1, 2, 270⟩ : Hop).exit = 270 := by
  constructor
  · decide
  · decide

/-- C2 witness: the corrected theorem applied to the chain 1 → 2 of
`exNet2` and its 270-headed hop, locating it on a consecutive pair. -/
theorem path_hops_270_only_near_witness :
    ∃ k s n srest, ([⟨1, [⟨1, 270⟩]⟩, ⟨2, []⟩] : List Junction).drop k = s :: n :: srest ∧
      (⟨1, 2, 270⟩ : Hop).junction = s.id ∧ (⟨1, 2, 270⟩ : Hop).dest_junc = n.id :=
  path_hops_270_only_near exNet2 [⟨1, [⟨1, 270⟩]⟩, ⟨2, []⟩] [⟨1, 2, 270⟩]
    (by decide) ⟨1, 2, 270⟩ (by decide) (by decide)
end Lrn
